import Mathlib

/-!
# MIME tree flattening: `parseMIMEParts` of `mail/parse.go`

A shallow embedding of `parseMIMEParts` and of the values it works on.

* Byte streams (`io.Reader`) are the bytes a stream delivers followed by the error that ends
  it (`io.EOF` for a clean end).
* Header mappings (`textproto.MIMEHeader`) are association lists read through `Get`, `Set`
  and the raw index `has`.
* The library primitives the function calls (`mime.ParseMediaType`, `multipart.NewReader`,
  `base64.NewDecoder`, `quotedprintable.NewReader`) and the constant `DefaultContentType`
  are the fields of `Env`; every general theorem holds for an arbitrary `Env`.
* `NextPart` hands out a quoted-printable sub-entity decoded and without its transfer-encoding
  field; `newPart` is that rule, and `NewRawReader` gives the sub-entities as they stand in
  the body.
* The recursion of `parseMIMEParts` has no bound in the source; here it is driven by a fuel
  argument counting the nesting levels that may still be entered.
-/

set_option autoImplicit false
set_option maxRecDepth 20000

namespace mail

/-! ## Errors, byte streams, header mappings -/

/-- Error values. `EOF` is `io.EOF`; `other` stands for every error of the library
primitives (parse errors, read errors, corrupt input).
Modelled from the spec: `ErrMissingBoundary` is declared outside `parse.go`; the spec names it
as the distinct error of a multipart content type that has no boundary parameter. -/
inductive Error where
  | EOF
  | ErrMissingBoundary
  | other (msg : String)
  | wrapped (msg : String) (e : Error)
  deriving DecidableEq, Repr

/-- An `io.Reader`: the bytes it delivers, then the error that ends the stream
(`Error.EOF` when the stream ends cleanly). -/
structure Reader where
  data : List Nat
  err : Error
  deriving DecidableEq, Repr

deriving instance DecidableEq for Except

/-- The call `io.Copy(&buf, r)`: the buffered bytes, or the error that is not `io.EOF`. -/
def ioCopy (r : Reader) : Except Error (List Nat) :=
  if r.err = Error.EOF then Except.ok r.data else Except.error r.err

/-- A `textproto.MIMEHeader`, `map[string][]string`, as an association list; the map is not
`nil` (the empty list is the empty map). -/
abbrev MIMEHeader := List (String × List String)

/-- The test `validHeaderFieldByte` of `net/textproto`: the token characters of RFC 7230. -/
def validHeaderFieldByte (c : Char) : Bool :=
  c.isAlphanum || [33, 35, 36, 37, 38, 39, 42, 43, 45, 46, 94, 95, 96, 124, 126].contains c.toNat

/-- The rewriting loop of `canonicalMIMEHeaderKey`: upper case at the start and after each
dash, lower case elsewhere. -/
def canonicalLoop : Bool → List Char → List Char
  | _, [] => []
  | upper, c :: cs =>
    let c1 := if upper && c.isLower then c.toUpper
              else if !upper && c.isUpper then c.toLower else c
    c1 :: canonicalLoop (c1 == '-') cs

/-- The function `textproto.CanonicalMIMEHeaderKey`: a key holding a byte that is not a token
character is returned unchanged. -/
def CanonicalMIMEHeaderKey (s : String) : String :=
  if s.data.all validHeaderFieldByte then String.mk (canonicalLoop true s.data) else s

namespace MIMEHeader

/-- The raw map index `_, ok := h[key]`. -/
def has (h : MIMEHeader) (key : String) : Bool :=
  (h.lookup key).isSome

/-- The method `Get`: the first value under the canonical form of `key`, or `""`. -/
def Get (h : MIMEHeader) (key : String) : String :=
  match h.lookup (CanonicalMIMEHeaderKey key) with
  | some (v :: _) => v
  | _ => ""

/-- The method `Set`: the entry under the canonical form of `key` becomes the single value. -/
def Set (h : MIMEHeader) (key value : String) : MIMEHeader :=
  (CanonicalMIMEHeaderKey key, [value]) ::
    h.filter (fun kv => !(kv.1 == CanonicalMIMEHeaderKey key))

/-- The method `Del`: the entry under the canonical form of `key` is removed. -/
def Del (h : MIMEHeader) (key : String) : MIMEHeader :=
  h.filter (fun kv => !(kv.1 == CanonicalMIMEHeaderKey key))

end MIMEHeader

/-- The function `strings.HasPrefix`. -/
def HasPrefix (s pre : String) : Bool :=
  pre.data.isPrefixOf s.data

/-! ## Constants declared outside `parse.go` -/

/-- Modelled from the spec: the content-type header field name (constant `CONTENT_TYPE`,
declared outside `parse.go`). -/
def CONTENT_TYPE : String := "Content-Type"

/-- Modelled from the spec: the transfer-encoding header field name (constant
`CONTENT_TRANSFER_ENCODING`, declared outside `parse.go`). -/
def CONTENT_TRANSFER_ENCODING : String := "Content-Transfer-Encoding"

/-- Modelled from the spec: the value matched as a prefix of a multipart media type (constant
`MULTIPART`, declared outside `parse.go`). -/
def MULTIPART : String := "multipart"

/-- Modelled from the spec: the boundary parameter name (constant `BOUNDARY`, declared outside
`parse.go`). -/
def BOUNDARY : String := "boundary"

/-- Modelled from the spec: the transfer-encoding token `base64` (constant `BASE_64`, declared
outside `parse.go`). -/
def BASE_64 : String := "base64"

/-- Modelled from the spec: the transfer-encoding token `quoted-printable` (constant
`QUOTED_PRINTABLE`, declared outside `parse.go`). -/
def QUOTED_PRINTABLE : String := "quoted-printable"

/-! ## The program -/

/-- The struct `part` of `parse.go`: a copyable representation of a `multipart.Part`. -/
structure part where
  header : MIMEHeader
  body : List Nat
  deriving DecidableEq, Repr

/-- A `multipart.Part`: the header of a sub-entity and the stream of its body. -/
structure Part where
  Header : MIMEHeader
  body : Reader
  deriving DecidableEq, Repr

/-- A `multipart.Reader`, by what its successive `NextPart` calls return: the sub-entities in
the order they are yielded, then the error of the call after the last one (`Error.EOF` for
end-of-entities). -/
structure MultipartReader where
  parts : List Part
  err : Error
  deriving DecidableEq, Repr

/-- What `parse.go` takes from outside: the constant `DefaultContentType` (declared in another
file of the package, its value is not fixed by the spec) and the library primitives. -/
structure Env where
  DefaultContentType : String
  ParseMediaType : String → Except Error (String × List (String × String))
  NewReader : Reader → String → MultipartReader
  base64NewDecoder : Reader → Reader
  quotedprintableNewReader : Reader → Reader

/-- The outcome of a call: the caller's header mapping after the call (it is modified in
place), the returned slice and the returned error (`none` for `nil`). -/
structure Result where
  hs : MIMEHeader
  ps : List part
  err : Option Error
  deriving DecidableEq, Repr

/-- Lines 27-29 and 49-51: the default content type is set when the raw key is absent. -/
def injectDefault (E : Env) (h : MIMEHeader) : MIMEHeader :=
  if h.has CONTENT_TYPE then h else h.Set CONTENT_TYPE E.DefaultContentType

/-- Lines 63-67: the stream a leaf sub-entity is drained from. -/
def subReader (E : Env) (hdr : MIMEHeader) (p : Reader) : Reader :=
  if hdr.Get CONTENT_TRANSFER_ENCODING = BASE_64 then E.base64NewDecoder p else p

/-- Lines 78-83: the stream a top-level leaf entity is drained from. -/
def topReader (E : Env) (hs : MIMEHeader) (b : Reader) : Reader :=
  if hs.Get CONTENT_TRANSFER_ENCODING = QUOTED_PRINTABLE then E.quotedprintableNewReader b
  else if hs.Get CONTENT_TRANSFER_ENCODING = BASE_64 then E.base64NewDecoder b
  else b

/-- The loop of lines 40-75 over the results of `mr.NextPart()`: `parts` are the sub-entities
still to come, `fin` the error returned after them, `ps` the slice accumulated so far, and
`self` the recursive call of line 57. The result is the pair returned by the enclosing call;
`none` when a recursive call ran out of fuel. -/
def nextParts (E : Env) (self : MIMEHeader → Reader → Option Result) :
    List Part → Error → List part → Option (List part × Option Error)
  | [], fin, ps => if fin = Error.EOF then some (ps, none) else some (ps, some fin)
  | p :: rest, fin, ps =>
    let hdr := injectDefault E p.Header
    match E.ParseMediaType (hdr.Get CONTENT_TYPE) with
    | Except.error e => some (ps, some e)
    | Except.ok (subct, _) =>
      if HasPrefix subct MULTIPART then
        match self hdr p.body with
        | none => none
        | some r =>
          match r.err with
          | some e => some (ps, some e)
          | none => nextParts E self rest fin (ps ++ r.ps)
      else
        match ioCopy (subReader E hdr p.body) with
        | Except.error e => some (ps, some e)
        | Except.ok buf => nextParts E self rest fin (ps ++ [⟨hdr, buf⟩])

/-- The function `parseMIMEParts(hs, b)`. The first argument is the number of nesting levels
the recursion may still enter; `none` means it was too small for the input. -/
def parseMIMEParts (E : Env) : Nat → MIMEHeader → Reader → Option Result
  | 0, _, _ => none
  | fuel + 1, hs, b =>
    let hs := injectDefault E hs
    match E.ParseMediaType (hs.Get CONTENT_TYPE) with
    | Except.error e => some ⟨hs, [], some e⟩
    | Except.ok (ct, params) =>
      if HasPrefix ct MULTIPART then
        match params.lookup BOUNDARY with
        | none => some ⟨hs, [], some Error.ErrMissingBoundary⟩
        | some boundary =>
          let mr := E.NewReader b boundary
          match nextParts E (parseMIMEParts E fuel) mr.parts mr.err [] with
          | none => none
          | some (ps, err) => some ⟨hs, ps, err⟩
      else
        match ioCopy (topReader E hs b) with
        | Except.error e => some ⟨hs, [], some e⟩
        | Except.ok buf => some ⟨hs, [⟨hs, buf⟩], none⟩

/-! ## The parts `NextPart` yields

`mr.NextPart()` (line 42) does not hand out a sub-entity as it stands in the body: the function
`newPart` of `mime/multipart` first looks at its transfer encoding. -/

/-- The function `strings.EqualFold`, on ASCII letters. -/
def EqualFold (s t : String) : Bool :=
  s.data.map Char.toLower == t.data.map Char.toLower

/-- The part `NextPart` makes of a sub-entity as it stands in the body (function `newPart` of
`mime/multipart`): when the sub-entity's Content-Transfer-Encoding is `quoted-printable`, in
any letter case, that header is deleted and the body is read through the quoted-printable
reader `qp`; otherwise the sub-entity is left as it is. -/
def newPart (qp : Reader → Reader) (raw : Part) : Part :=
  if EqualFold (raw.Header.Get "Content-Transfer-Encoding") "quoted-printable" then
    ⟨raw.Header.Del "Content-Transfer-Encoding", qp raw.body⟩
  else raw

/-! ## A concrete environment

Executable models of the library primitives, written after the Go standard library, used to
run `parseMIMEParts` on concrete documents. The general theorems do not depend on them. -/

/-- The bytes of an ASCII string. -/
def bytesOf (s : String) : List Nat := s.data.map Char.toNat

/-- The string whose characters have the given bytes as codes. -/
def stringOf (l : List Nat) : String := String.mk (l.map Char.ofNat)

/-- The lines of a byte sequence as `ReadSlice` with a line feed as delimiter returns them: each
line with its line feed, the last one without when the input does not end in one. The second
argument holds the bytes of the current line, reversed. -/
def linesOf : List Nat → List Nat → List (List Nat)
  | [], acc => if acc.isEmpty then [] else [acc.reverse]
  | c :: cs, acc =>
    if c = 10 then (c :: acc).reverse :: linesOf cs [] else linesOf cs (c :: acc)

/-- The two hexadecimal digits of a byte, in lower case. -/
def hex2 (n : Nat) : List Nat :=
  [if n / 16 % 16 < 10 then 48 + n / 16 % 16 else 87 + n / 16 % 16,
   if n % 16 < 10 then 48 + n % 16 else 87 + n % 16]

/-- One byte as the verb `%q` of `fmt` prints it inside a quoted string. -/
def quoteByte (c : Nat) : List Nat :=
  if c = 34 then [92, 34] else if c = 92 then [92, 92]
  else if c = 10 then [92, 110] else if c = 13 then [92, 114] else if c = 9 then [92, 116]
  else if c = 7 then [92, 97] else if c = 8 then [92, 98] else if c = 12 then [92, 102]
  else if c = 11 then [92, 118]
  else if 32 ≤ c ∧ c < 127 then [c] else 92 :: 120 :: hex2 c

/-- A byte sequence as the verb `%q` prints it (bytes above 127 as escapes). -/
def quoted (l : List Nat) : String :=
  stringOf (34 :: (l.map quoteByte).flatten ++ [34])

/-- The value of a hexadecimal digit. -/
def hexValue (c : Nat) : Option Nat :=
  if 48 ≤ c ∧ c ≤ 57 then some (c - 48)
  else if 65 ≤ c ∧ c ≤ 70 then some (c - 55)
  else if 97 ≤ c ∧ c ≤ 102 then some (c - 87)
  else none

/-- The bytes that `quotedprintable` strips from the end of a line. -/
def isQPDiscard (c : Nat) : Bool := c == 10 || c == 13 || c == 32 || c == 9

/-- What the reader does at an equals sign, given the bytes after it: a byte from two
hexadecimal digits, a literal equals sign, or an error. -/
inductive QPEscape where
  | byte (v : Nat)
  | literal
  | fail (e : Error)

/-- The decision of `quotedprintable.Reader.Read` at an equals sign followed by `rest`. -/
def qpEscape (rest : List Nat) : QPEscape :=
  match rest with
  | x :: y :: _ =>
    match hexValue x, hexValue y with
    | some hx, some hy => QPEscape.byte (16 * hx + hy)
    | none, _ =>
      if x = 13 ∨ x = 10 then
        QPEscape.fail (Error.other ("quotedprintable: invalid hex byte 0x" ++ stringOf (hex2 x)))
      else QPEscape.literal
    | some _, none => QPEscape.literal
  | [x] =>
    if x = 13 ∨ x = 10 then QPEscape.fail (Error.other "unexpected EOF") else QPEscape.literal
  | [] => QPEscape.fail (Error.other "unexpected EOF")

/-- The decoding of the bytes of one line after its end was prepared; the first argument counts
bytes still to skip after an escape. -/
def qpBytes : Nat → List Nat → List Nat × Option Error
  | _, [] => ([], none)
  | skip + 1, _ :: rest => qpBytes skip rest
  | 0, b :: rest =>
    if b = 61 then
      match qpEscape rest with
      | QPEscape.byte v => let r := qpBytes 2 rest; (v :: r.1, r.2)
      | QPEscape.literal => let r := qpBytes 0 rest; (61 :: r.1, r.2)
      | QPEscape.fail e => ([], some e)
    else if b = 9 ∨ b = 13 ∨ b = 10 ∨ 128 ≤ b ∨ (32 ≤ b ∧ b ≤ 126) then
      let r := qpBytes 0 rest
      (b :: r.1, r.2)
    else
      ([], some (Error.other ("quotedprintable: invalid unescaped byte 0x" ++
        stringOf (hex2 b) ++ " in body")))

/-- The preparation of one line: trailing white space is stripped, a final equals sign is a
soft line break, otherwise the line break is put back. The result is the bytes to decode and the
error the reader keeps for after them. `rerr` is the error that ended the underlying stream. -/
def qpPrepare (rerr : Error) (whole : List Nat) : List Nat × Option Error :=
  match whole.reverse.dropWhile isQPDiscard with
  | 61 :: body =>
    let stripped := whole.drop (body.length + 1)
    (body.reverse,
      if stripped.take 1 = [10] ∨ stripped.take 2 = [13, 10] ∨
          (stripped = [] ∧ body ≠ [] ∧ rerr = Error.EOF) then none
      else some (Error.other ("quotedprintable: invalid bytes after =: " ++ quoted stripped)))
  | line =>
    (line.reverse ++
      (match whole.reverse with
       | 10 :: 13 :: _ => [13, 10]
       | 10 :: _ => [10]
       | _ => []), none)

/-- The decoding of the lines of a quoted-printable stream: the bytes delivered and the error
that ends the stream. -/
def qpLines (rerr : Error) : List (List Nat) → List Nat × Error
  | [] => ([], rerr)
  | l :: ls =>
    match qpBytes 0 (qpPrepare rerr l).1 with
    | (out, some e) => (out, e)
    | (out, none) =>
      match (qpPrepare rerr l).2 with
      | some e => (out, e)
      | none => let r := qpLines rerr ls; (out ++ r.1, r.2)

/-- A model of `quotedprintable.NewReader(r)`, for lines shorter than the reader's buffer of
4096 bytes. -/
def quotedprintableNewReader (r : Reader) : Reader :=
  ⟨(qpLines r.err (linesOf r.data [])).1, (qpLines r.err (linesOf r.data [])).2⟩

/-- The value of a character of the standard base64 alphabet. -/
def base64Value (c : Nat) : Option Nat :=
  if 65 ≤ c ∧ c ≤ 90 then some (c - 65)
  else if 97 ≤ c ∧ c ≤ 122 then some (c - 71)
  else if 48 ≤ c ∧ c ≤ 57 then some (c + 4)
  else if c = 43 then some 62
  else if c = 47 then some 63
  else none

/-- Standard-alphabet base64 decoding with padding, four characters at a time: the bytes
decoded and the error met, if any. -/
def base64Decode : List Nat → List Nat × Option Error
  | [] => ([], none)
  | a :: b :: c :: d :: rest =>
    match base64Value a, base64Value b, base64Value c, base64Value d with
    | some x, some y, some z, some w =>
      let n := x * 262144 + y * 4096 + z * 64 + w
      let r := base64Decode rest
      (n / 65536 :: n / 256 % 256 :: n % 256 :: r.1, r.2)
    | some x, some y, some z, none =>
      let n := x * 262144 + y * 4096 + z * 64
      if d = 61 ∧ rest = [] then ([n / 65536, n / 256 % 256], none)
      else ([], some (Error.other "illegal base64 data"))
    | some x, some y, none, none =>
      let n := x * 262144 + y * 4096
      if c = 61 ∧ d = 61 ∧ rest = [] then ([n / 65536], none)
      else ([], some (Error.other "illegal base64 data"))
    | _, _, _, _ => ([], some (Error.other "illegal base64 data"))
  | _ => ([], some (Error.other "unexpected EOF"))

/-- A model of `base64.NewDecoder(base64.StdEncoding, r)`: line breaks are skipped, the rest
is decoded; corrupt input ends the stream with an error, otherwise the stream ends as `r`. -/
def base64NewDecoder (r : Reader) : Reader :=
  let d := base64Decode (r.data.filter (fun c => !(c == 13 || c == 10)))
  match d.2 with
  | some e => if r.err = Error.EOF then ⟨d.1, e⟩ else ⟨d.1, r.err⟩
  | none => ⟨d.1, r.err⟩

/-- The ASCII characters for which `unicode.IsSpace` holds. -/
def isSpaceChar (c : Char) : Bool := [9, 10, 11, 12, 13, 32].contains c.toNat

/-- The test `isTSpecial` of `mime`. -/
def isTSpecial (c : Char) : Bool :=
  [40, 41, 60, 62, 64, 44, 59, 58, 92, 34, 47, 91, 93, 63, 61].contains c.toNat

/-- A token character of `mime`: printable ASCII that is not a `tspecial`. -/
def isTokenChar (c : Char) : Bool :=
  32 < c.toNat && c.toNat < 127 && !isTSpecial c

/-- Leading and trailing white space removed. -/
def trimSpace (l : List Char) : List Char :=
  ((l.dropWhile isSpaceChar).reverse.dropWhile isSpaceChar).reverse

/-- The check `checkMediaTypeDisposition`: a token, then optionally a slash and a token. -/
def checkMediaTypeDisposition (s : List Char) : Option Error :=
  if (s.takeWhile isTokenChar).isEmpty then some (Error.other "mime: no media type")
  else
    match s.dropWhile isTokenChar with
    | [] => none
    | c :: r1 =>
      if c.toNat ≠ 47 then some (Error.other "mime: expected slash after first token")
      else if (r1.takeWhile isTokenChar).isEmpty then
        some (Error.other "mime: expected token after slash")
      else if (r1.dropWhile isTokenChar).isEmpty then none
      else some (Error.other "mime: unexpected content after media subtype")

/-- The quoted-string branch of `consumeValue`, after the opening quote: the value and the
rest, or `none` when the string is not closed. The first argument tells that the previous
character was a backslash escaping a `tspecial`; the third holds the value so far, reversed. -/
def consumeQuoted : Bool → List Char → List Char → Option (List Char × List Char)
  | _, [], _ => none
  | true, c :: cs, acc => consumeQuoted false cs (c :: acc)
  | false, c :: cs, acc =>
    if c.toNat = 34 then some (acc.reverse, cs)
    else if c.toNat = 92 ∧ (cs.head?.map isTSpecial) = some true then consumeQuoted true cs acc
    else if c.toNat = 13 ∨ c.toNat = 10 then none
    else consumeQuoted false cs (c :: acc)

/-- The function `consumeValue`: a token or a quoted string, and the rest. -/
def consumeValue (v : List Char) : Option (List Char × List Char) :=
  match v with
  | [] => none
  | c :: cs =>
    if c.toNat = 34 then consumeQuoted false cs []
    else if (v.takeWhile isTokenChar).isEmpty then none
    else some (v.takeWhile isTokenChar, v.dropWhile isTokenChar)

/-- The function `consumeMediaParam`: the parameter `;name=value` at the head of `v`, its name
in lower case, and the rest. -/
def consumeMediaParam (v : List Char) : Option (String × String × List Char) :=
  match v.dropWhile isSpaceChar with
  | [] => none
  | c :: r1 =>
    if c.toNat ≠ 59 then none
    else
      let r2 := r1.dropWhile isSpaceChar
      let param := (r2.takeWhile isTokenChar).map Char.toLower
      if param.isEmpty then none
      else
        match (r2.dropWhile isTokenChar).dropWhile isSpaceChar with
        | [] => none
        | e :: r3 =>
          if e.toNat ≠ 61 then none
          else
            match consumeValue (r3.dropWhile isSpaceChar) with
            | none => none
            | some (value, rest) => some (String.mk param, String.mk value, rest)

/-- The assignment `m[key] = value` of a map of strings. -/
def setParam : List (String × String) → String → String → List (String × String)
  | [], k, v => [(k, v)]
  | (k1, v1) :: m, k, v => if k1 = k then (k1, v) :: m else (k1, v1) :: setParam m k v

/-- The parameter loop of `ParseMediaType`: the plain parameters and those whose name holds a
star. The first argument bounds the number of parameters read. -/
def parseParams : Nat → List Char → List (String × String) → List (String × String) →
    Except Error (List (String × String) × List (String × String))
  | 0, _, params, cont => Except.ok (params, cont)
  | fuel + 1, v, params, cont =>
    if (v.dropWhile isSpaceChar).isEmpty then Except.ok (params, cont)
    else
      match consumeMediaParam (v.dropWhile isSpaceChar) with
      | none =>
        if trimSpace v = [Char.ofNat 59] then Except.ok (params, cont)
        else Except.error (Error.other "mime: invalid media parameter")
      | some (key, value, rest) =>
        if key.data.any (fun c => c.toNat = 42) then
          if (cont.lookup key).any (fun v0 => v0 ≠ value) then
            Except.error (Error.other "mime: duplicate parameter name")
          else parseParams fuel rest params (setParam cont key value)
        else
          if (params.lookup key).any (fun v0 => v0 ≠ value) then
            Except.error (Error.other "mime: duplicate parameter name")
          else parseParams fuel rest (setParam params key value) cont

/-- The function `percentHexUnescape`: `%XX` replaced by the byte `XX`; `none` when a percent
sign is not followed by two hexadecimal digits. The first argument counts characters still to
skip. -/
def percentHexUnescape : Nat → List Char → Option (List Char)
  | _, [] => some []
  | skip + 1, _ :: cs => percentHexUnescape skip cs
  | 0, c :: cs =>
    if c.toNat = 37 then
      match cs with
      | x :: y :: _ =>
        match hexValue x.toNat, hexValue y.toNat, percentHexUnescape 2 cs with
        | some hx, some hy, some r => some (Char.ofNat (16 * hx + hy) :: r)
        | _, _, _ => none
      | _ => none
    else (percentHexUnescape 0 cs).map (fun r => c :: r)

/-- The function `decode2231Enc`: a value `charset'language'text` with the charset `us-ascii`
or `utf-8` and its text percent-decoded. -/
def decode2231Enc (v : List Char) : Option (List Char) :=
  let charset := (v.takeWhile (fun c => c.toNat ≠ 39)).map Char.toLower
  match v.dropWhile (fun c => c.toNat ≠ 39) with
  | [] => none
  | _ :: r1 =>
    match r1.dropWhile (fun c => c.toNat ≠ 39) with
    | [] => none
    | _ :: text =>
      if String.mk charset = "us-ascii" ∨ String.mk charset = "utf-8" then
        percentHexUnescape 0 text
      else none

/-- The loop of `ParseMediaType` that joins the pieces `name*0`, `name*1`, ... or their
percent-encoded forms `name*0*`, `name*1*`, ... of a parameter; `none` when there is no piece.
The first argument bounds the number of pieces. -/
def stitchPieces (cont : List (String × String)) (base : String) :
    Nat → Nat → Bool → List Char → Option (List Char)
  | 0, _, valid, buf => if valid then some buf else none
  | fuel + 1, n, valid, buf =>
    match cont.lookup (base ++ "*" ++ String.mk (Nat.toDigits 10 n)) with
    | some v => stitchPieces cont base fuel (n + 1) true (buf ++ v.data)
    | none =>
      match cont.lookup (base ++ "*" ++ String.mk (Nat.toDigits 10 n) ++ "*") with
      | none => if valid then some buf else none
      | some v =>
        if n = 0 then
          stitchPieces cont base fuel (n + 1) true (buf ++ (decode2231Enc v.data).getD [])
        else
          stitchPieces cont base fuel (n + 1) true (buf ++ (percentHexUnescape 0 v.data).getD [])

/-- The parameters after the starred parameters of the base name `base` were stitched
together. -/
def stitchBase (cont : List (String × String)) (params : List (String × String))
    (base : String) : List (String × String) :=
  match cont.lookup (base ++ "*") with
  | some v =>
    match decode2231Enc v.data with
    | some d => setParam params base (String.mk d)
    | none => params
  | none =>
    match stitchPieces cont base (cont.length + 1) 0 false [] with
    | some d => setParam params base (String.mk d)
    | none => params

/-- A model of `mime.ParseMediaType`: the media type in lower case and the parameters, their
names in lower case; bytes above 127 are taken as ordinary characters. -/
def ParseMediaType (v : String) : Except Error (String × List (String × String)) :=
  match checkMediaTypeDisposition
      (trimSpace ((v.data.takeWhile (fun c => c.toNat ≠ 59)).map Char.toLower)) with
  | some e => Except.error e
  | none =>
    match parseParams (v.data.length + 1) (v.data.dropWhile (fun c => c.toNat ≠ 59)) [] [] with
    | Except.error e => Except.error e
    | Except.ok (params, cont) =>
      Except.ok
        (String.mk (trimSpace ((v.data.takeWhile (fun c => c.toNat ≠ 59)).map Char.toLower)),
          cont.foldl
            (fun ps kv =>
              stitchBase cont ps (String.mk (kv.1.data.takeWhile (fun c => c.toNat ≠ 42))))
            params)

/-- Linear white space: space and tab. -/
def isLWSP (c : Nat) : Bool := c == 32 || c == 9

/-- The line break of the multipart reader: a line feed alone once the reader has switched to
that mode, carriage return and line feed otherwise. -/
def nlOf (lf : Bool) : List Nat := if lf then [10] else [13, 10]

/-- The method `isBoundaryDelimiterLine` for the delimiter `db` (two dashes and the boundary):
`some` of the line-break mode after the call when `line` is a delimiter line. Before the first
part, a delimiter line ending in a bare line feed switches the mode. -/
def delimiterLine (db : List Nat) (partsRead : Nat) (lf : Bool) (line : List Nat) :
    Option Bool :=
  if db.isPrefixOf line then
    if (line.drop db.length).dropWhile isLWSP =
        nlOf (lf || (partsRead == 0 && (line.drop db.length).dropWhile isLWSP == [10])) then
      some (lf || (partsRead == 0 && (line.drop db.length).dropWhile isLWSP == [10]))
    else none
  else none

/-- The method `isFinalBoundary`. -/
def finalBoundary (db : List Nat) (lf : Bool) (line : List Nat) : Bool :=
  (db ++ [45, 45]).isPrefixOf line &&
    ((line.drop (db.length + 2)).dropWhile isLWSP == [] ||
     (line.drop (db.length + 2)).dropWhile isLWSP == nlOf lf)

/-- The outcome of the line loop of `nextPart`: a delimiter line was read, the lines after it
and the line-break mode are given; or the call returns the error `e`. -/
inductive Scan where
  | found (rest : List (List Nat)) (lf : Bool)
  | stop (e : Error)

/-- The line loop of `nextPart`. `rerr` is the error that ends the underlying stream,
`partsRead` the number of parts read so far, the first flag tells that a delimiter line is
expected next and the second is the line-break mode. -/
def nextPartScan (db : List Nat) (rerr : Error) (partsRead : Nat) :
    Bool → Bool → List (List Nat) → Scan
  | _, _, [] => Scan.stop (Error.wrapped "multipart: NextPart" rerr)
  | expect, lf, l :: ls =>
    if l.getLast? ≠ some 10 then
      if rerr = Error.EOF ∧ finalBoundary db lf l = true then Scan.stop Error.EOF
      else Scan.stop (Error.wrapped "multipart: NextPart" rerr)
    else
      match delimiterLine db partsRead lf l with
      | some lf1 => Scan.found ls lf1
      | none =>
        if finalBoundary db lf l then Scan.stop Error.EOF
        else if expect then
          Scan.stop (Error.other ("multipart: expecting a new Part; got line " ++ quoted l))
        else if partsRead = 0 then nextPartScan db rerr partsRead expect lf ls
        else if l = nlOf lf then nextPartScan db rerr partsRead true lf ls
        else Scan.stop (Error.other ("multipart: unexpected line in Next(): " ++ quoted l))

/-- A line without its line break, as `ReadLine` returns it. -/
def stripEOL (l : List Nat) : List Nat :=
  match l.reverse with
  | 10 :: 13 :: r => r.reverse
  | 10 :: r => r.reverse
  | _ => l

/-- Leading and trailing spaces and tabs removed. -/
def trimLWSP (l : List Nat) : List Nat :=
  ((l.dropWhile isLWSP).reverse.dropWhile isLWSP).reverse

/-- The test `validHeaderValueByte` of `net/textproto`. -/
def validHeaderValueByte (c : Nat) : Bool := c == 9 || (32 ≤ c && c ≤ 126) || 128 ≤ c

/-- The method `Add` of a header mapping: the value is appended to those of the key. -/
def headerAdd : MIMEHeader → String → String → MIMEHeader
  | [], k, v => [(k, [v])]
  | (k1, vs) :: h, k, v => if k1 = k then (k1, vs ++ [v]) :: h else (k1, vs) :: headerAdd h k v

/-- One header line `key: value`, continuation lines joined, added to the mapping as the loop
of `ReadMIMEHeader` does: the key is put in canonical form unless it holds a space, a line with
an empty key is skipped. -/
def addHeaderLine (m : MIMEHeader) (kv : List Nat) : Except Error MIMEHeader :=
  if !kv.contains 58 ||
      (kv.takeWhile (fun c => c ≠ 58)).any
        (fun c => !validHeaderFieldByte (Char.ofNat c) && c != 32) ||
      ((kv.dropWhile (fun c => c ≠ 58)).drop 1).any (fun c => !validHeaderValueByte c) then
    Except.error (Error.other ("malformed MIME header line: " ++ stringOf kv))
  else if (kv.takeWhile (fun c => c ≠ 58)).isEmpty then Except.ok m
  else
    Except.ok (headerAdd m
      (if (kv.takeWhile (fun c => c ≠ 58)).contains 32 then
        stringOf (kv.takeWhile (fun c => c ≠ 58))
       else CanonicalMIMEHeaderKey (stringOf (kv.takeWhile (fun c => c ≠ 58))))
      (stringOf (((kv.dropWhile (fun c => c ≠ 58)).drop 1).dropWhile isLWSP)))

/-- The loop of `ReadMIMEHeader` over the lines of a header block: the header mapping, or the
error, and the lines after the block. The second argument is the header line being read, to
which continuation lines are still added; the block ends at an empty line, and with the error
`rerr` of the stream when the input ends before one. -/
def readHeader (rerr : Error) :
    List (List Nat) → Option (List Nat) → MIMEHeader → Except Error MIMEHeader × List (List Nat)
  | [], pending, m =>
    match (match pending with
      | none => Except.ok m
      | some kv => addHeaderLine m kv) with
    | Except.error e => (Except.error e, [])
    | Except.ok _ => (Except.error rerr, [])
  | l :: ls, pending, m =>
    if pending.isSome && (l.head?.map isLWSP) == some true then
      readHeader rerr ls (pending.map (fun kv => kv ++ 32 :: trimLWSP (stripEOL l))) m
    else
      match (match pending with
        | none => Except.ok m
        | some kv => addHeaderLine m kv) with
      | Except.error e => (Except.error e, ls)
      | Except.ok m1 =>
        if (stripEOL l).isEmpty then (Except.ok m1, ls)
        else if !(stripEOL l).contains 58 then
          (Except.error (Error.other
            ("malformed MIME header: missing colon: " ++ quoted (stripEOL l))), ls)
        else readHeader rerr ls (some (trimLWSP (stripEOL l))) m1

/-- The test `matchAfterPrefix` at the end of the input: the bytes after a candidate boundary
make it a boundary when they start with a space, a tab, a line break or two dashes, or when
there is none. -/
def matchAfter (tail : List Nat) : Bool :=
  match tail with
  | [] => true
  | c :: t => c == 32 || c == 9 || c == 13 || c == 10 || (c == 45 && t.head? == some 45)

/-- The search of `scanUntilBoundary` for the line break and delimiter `pat` followed by what
makes it a boundary: the bytes before it, and the bytes from it on when there is one. The third
argument holds the bytes passed, reversed. -/
def scanBoundary (pat : List Nat) : List Nat → List Nat → List Nat × Option (List Nat)
  | [], acc => (acc.reverse, none)
  | c :: cs, acc =>
    if pat.isPrefixOf (c :: cs) && matchAfter ((c :: cs).drop pat.length) then
      (acc.reverse, some (c :: cs))
    else scanBoundary pat cs (c :: acc)

/-- The body delivered when the input ends without a boundary: the bytes from the last start of
a line break on are held back when they are the beginning of `pat`. -/
def dropPartial (pat : List Nat) (nl0 : Nat) : List Nat → List Nat
  | [] => []
  | c :: cs =>
    if c = nl0 ∧ ¬ cs.contains nl0 ∧ (c :: cs).isPrefixOf pat then []
    else c :: dropPartial pat nl0 cs

/-- The error a part's stream ends with when the input ends inside the part. -/
def unexpectedEOF (rerr : Error) : Error :=
  if rerr = Error.EOF then Error.other "unexpected EOF" else rerr

/-- The stream of a part's body read from `buf`, the input after the part's header, and the
input left for the next `NextPart` call. -/
def partBody (db : List Nat) (lf : Bool) (rerr : Error) (buf : List Nat) :
    Reader × List Nat :=
  if db.isPrefixOf buf && matchAfter (buf.drop db.length) then (⟨[], Error.EOF⟩, buf)
  else if buf.isPrefixOf db then (⟨[], unexpectedEOF rerr⟩, buf)
  else
    match scanBoundary (nlOf lf ++ db) buf [] with
    | (body, some rest) => (⟨body, Error.EOF⟩, rest)
    | (_, none) =>
      (⟨dropPartial (nlOf lf ++ db) (if lf then 10 else 13) buf, unexpectedEOF rerr⟩,
        buf.drop (dropPartial (nlOf lf ++ db) (if lf then 10 else 13) buf).length)

/-- The sub-entities that successive `NextRawPart` calls yield from the input `buf`, and the
error of the call after the last one. The first number bounds the number of parts; the length
of the input plus one is enough. -/
def partsLoop (db : List Nat) (rerr : Error) : Nat → List Nat → Nat → Bool → MultipartReader
  | 0, _, _, _ => ⟨[], Error.wrapped "multipart: NextPart" rerr⟩
  | fuel + 1, buf, partsRead, lf =>
    match nextPartScan db rerr partsRead false lf (linesOf buf []) with
    | Scan.stop e => ⟨[], e⟩
    | Scan.found rest lf1 =>
      if ((rest.head?.bind List.head?).map isLWSP) == some true then
        ⟨[], Error.other ("malformed MIME header initial line: " ++
          stringOf (stripEOL (rest.head?.getD [])))⟩
      else
        match readHeader rerr rest none [] with
        | (Except.error e, _) => ⟨[], e⟩
        | (Except.ok h, rest1) =>
          ⟨⟨h, (partBody db lf1 rerr rest1.flatten).1⟩ ::
              (partsLoop db rerr fuel (partBody db lf1 rerr rest1.flatten).2
                (partsRead + 1) lf1).parts,
            (partsLoop db rerr fuel (partBody db lf1 rerr rest1.flatten).2
                (partsRead + 1) lf1).err⟩

/-- A model of `multipart.NewReader(b, boundary)` followed by `NextRawPart` calls: the
sub-entities as they stand in the body, for lines shorter than the reader's buffer of 4096
bytes and a boundary without line breaks. -/
def NewRawReader (b : Reader) (boundary : String) : MultipartReader :=
  if boundary.data.isEmpty then ⟨[], Error.other "multipart: boundary is empty"⟩
  else partsLoop (45 :: 45 :: bytesOf boundary) b.err (b.data.length + 1) b.data 0 false

/-- A model of `multipart.NewReader(b, boundary)` followed by `NextPart` calls: each sub-entity
of the body as `newPart` delivers it, a quoted-printable one decoded and without that
header. -/
def NewReader (b : Reader) (boundary : String) : MultipartReader :=
  ⟨(NewRawReader b boundary).parts.map (newPart quotedprintableNewReader),
    (NewRawReader b boundary).err⟩

/-- The environment of the library models above, for a given `DefaultContentType`. -/
def stdEnv (dct : String) : Env :=
  ⟨dct, ParseMediaType, NewReader, base64NewDecoder, quotedprintableNewReader⟩

/-! ## Specification vocabulary -/

/-- What one pass of the loop body (lines 49-74) does with the sub-entity `p`: `ok out` when the
parts `out` are appended and the loop goes on, `error e` when the call returns `e`; `none` when
the recursive call ran out of fuel. -/
def stepPart (E : Env) (self : MIMEHeader → Reader → Option Result) (p : Part) :
    Option (Except Error (List part)) :=
  match E.ParseMediaType ((injectDefault E p.Header).Get CONTENT_TYPE) with
  | Except.error e => some (Except.error e)
  | Except.ok (subct, _) =>
    if HasPrefix subct MULTIPART then
      match self (injectDefault E p.Header) p.body with
      | none => none
      | some r =>
        match r.err with
        | some e => some (Except.error e)
        | none => some (Except.ok r.ps)
    else
      match ioCopy (subReader E (injectDefault E p.Header) p.body) with
      | Except.error e => some (Except.error e)
      | Except.ok buf => some (Except.ok [⟨injectDefault E p.Header, buf⟩])

/-- The part emitted for a leaf sub-entity `p` of a multipart entity. -/
def leafPart (E : Env) (p : Part) : part :=
  ⟨injectDefault E p.Header, (subReader E (injectDefault E p.Header) p.body).data⟩

/-- The entity with header `hs` is a multipart entity whose boundary parameter is `boundary`. -/
def IsMultipart (E : Env) (hs : MIMEHeader) (boundary : String) : Prop :=
  ∃ ct params, E.ParseMediaType ((injectDefault E hs).Get CONTENT_TYPE) = Except.ok (ct, params) ∧
    HasPrefix ct MULTIPART = true ∧ params.lookup BOUNDARY = some boundary

/-- The sub-entity `p` is a leaf: its content type parses to a media type without the multipart
prefix. -/
def IsLeaf (E : Env) (p : Part) : Prop :=
  ∃ subct subparams,
    E.ParseMediaType ((injectDefault E p.Header).Get CONTENT_TYPE) = Except.ok (subct, subparams) ∧
    HasPrefix subct MULTIPART = false

/-- The sub-entity `p` is processed without error by the loop body, given enough fuel. -/
def Succeeds (E : Env) (p : Part) : Prop :=
  ∃ fuel out, stepPart E (parseMIMEParts E fuel) p = some (Except.ok out)

/-- The proposition `Raises E d hs b e`: in the call on the entity `(hs, b)`, the first step
that fails, in document order, fails with the error `e`, and it does so `d` nesting levels
below that call. The failing step is the parse of the content type, the boundary check, the
drain of a top-level leaf, a `NextPart` call, the parse of a sub-entity's content type, the
drain of a leaf sub-entity, or (one level further down) a step of the recursive call on a
multipart sub-entity. -/
inductive Raises (E : Env) : Nat → MIMEHeader → Reader → Error → Prop where
  | contentType (hs : MIMEHeader) (b : Reader) (e : Error)
      (h : E.ParseMediaType ((injectDefault E hs).Get CONTENT_TYPE) = Except.error e) :
      Raises E 0 hs b e
  | missingBoundary (hs : MIMEHeader) (b : Reader) (ct : String)
      (params : List (String × String))
      (h : E.ParseMediaType ((injectDefault E hs).Get CONTENT_TYPE) = Except.ok (ct, params))
      (hm : HasPrefix ct MULTIPART = true) (hb : params.lookup BOUNDARY = none) :
      Raises E 0 hs b Error.ErrMissingBoundary
  | topDrain (hs : MIMEHeader) (b : Reader) (ct : String) (params : List (String × String))
      (e : Error)
      (h : E.ParseMediaType ((injectDefault E hs).Get CONTENT_TYPE) = Except.ok (ct, params))
      (hm : HasPrefix ct MULTIPART = false)
      (hd : ioCopy (topReader E (injectDefault E hs) b) = Except.error e) :
      Raises E 0 hs b e
  | nextPart (hs : MIMEHeader) (b : Reader) (boundary : String) (e : Error)
      (hm : IsMultipart E hs boundary)
      (hall : ∀ q ∈ (E.NewReader b boundary).parts, Succeeds E q)
      (he : (E.NewReader b boundary).err = e) (hne : e ≠ Error.EOF) :
      Raises E 0 hs b e
  | subContentType (hs : MIMEHeader) (b : Reader) (boundary : String) (pre : List Part)
      (p : Part) (post : List Part) (e : Error)
      (hm : IsMultipart E hs boundary)
      (hparts : (E.NewReader b boundary).parts = pre ++ p :: post)
      (hpre : ∀ q ∈ pre, Succeeds E q)
      (h : E.ParseMediaType ((injectDefault E p.Header).Get CONTENT_TYPE) = Except.error e) :
      Raises E 0 hs b e
  | subDrain (hs : MIMEHeader) (b : Reader) (boundary : String) (pre : List Part)
      (p : Part) (post : List Part) (e : Error)
      (hm : IsMultipart E hs boundary)
      (hparts : (E.NewReader b boundary).parts = pre ++ p :: post)
      (hpre : ∀ q ∈ pre, Succeeds E q)
      (hl : IsLeaf E p)
      (hd : ioCopy (subReader E (injectDefault E p.Header) p.body) = Except.error e) :
      Raises E 0 hs b e
  | nested (d : Nat) (hs : MIMEHeader) (b : Reader) (boundary : String) (pre : List Part)
      (p : Part) (post : List Part) (e : Error) (subct : String)
      (subparams : List (String × String))
      (hm : IsMultipart E hs boundary)
      (hparts : (E.NewReader b boundary).parts = pre ++ p :: post)
      (hpre : ∀ q ∈ pre, Succeeds E q)
      (hct : E.ParseMediaType ((injectDefault E p.Header).Get CONTENT_TYPE) =
        Except.ok (subct, subparams))
      (hmp : HasPrefix subct MULTIPART = true)
      (h : Raises E d (injectDefault E p.Header) p.body e) :
      Raises E (d + 1) hs b e

/-- The proposition `EntityHeader E hs b h0`: `h0` is the header, as it stands in the input, of
an entity of the input `(hs, b)`, either the top-level entity or a sub-entity at any depth. -/
inductive EntityHeader (E : Env) : MIMEHeader → Reader → MIMEHeader → Prop where
  | top (hs : MIMEHeader) (b : Reader) : EntityHeader E hs b hs
  | sub (hs : MIMEHeader) (b : Reader) (boundary : String) (p : Part) (h0 : MIMEHeader)
      (hm : IsMultipart E hs boundary)
      (hp : p ∈ (E.NewReader b boundary).parts)
      (h : EntityHeader E p.Header p.body h0) :
      EntityHeader E hs b h0

/-- The greatest element of a list of numbers, `0` for the empty list. -/
def maxOf (l : List Nat) : Nat := l.foldr max 0

/-- The MIME nesting depth of the entity `(hs, b)`, in levels of entities that are entered as
such: `1` for an entity that is not a multipart with a boundary or has no multipart
sub-entity, and one more than the deepest of its multipart sub-entities otherwise. The first
argument bounds the levels explored; with sub-entities shorter than their parent, the length of
the body plus one explores them all. -/
def nestingDepth (E : Env) : Nat → MIMEHeader → Reader → Nat
  | 0, _, _ => 0
  | fuel + 1, hs, b =>
    match E.ParseMediaType ((injectDefault E hs).Get CONTENT_TYPE) with
    | Except.error _ => 1
    | Except.ok (ct, params) =>
      if HasPrefix ct MULTIPART then
        match params.lookup BOUNDARY with
        | none => 1
        | some boundary =>
          1 + maxOf ((E.NewReader b boundary).parts.map (fun p =>
            match E.ParseMediaType ((injectDefault E p.Header).Get CONTENT_TYPE) with
            | Except.error _ => 0
            | Except.ok (subct, _) =>
              if HasPrefix subct MULTIPART then
                nestingDepth E fuel (injectDefault E p.Header) p.body
              else 0))
      else 1

/-- The multipart reader yields sub-entities whose bodies are strictly shorter than the body
they are read from. -/
def Shrinking (E : Env) : Prop :=
  ∀ (b : Reader) (boundary : String), ∀ p ∈ (E.NewReader b boundary).parts,
    p.body.data.length < b.data.length

/-- The depth `d` of the recursion of the call on `(hs, b)`: the call returns when `d` nested
levels may be entered, and does not with fewer. -/
def RecursionDepth (E : Env) (hs : MIMEHeader) (b : Reader) (d : Nat) : Prop :=
  (∃ r, parseMIMEParts E d hs b = some r) ∧ ∀ f, f < d → parseMIMEParts E f hs b = none

/-! ## Concrete documents -/

/-- The default content type used in the examples. -/
def exampleDefault : String := "text/plain; charset=us-ascii"

/-- A multipart body with boundary `X`: a plain sub-entity `hello` and a base64 sub-entity
`d29ybGQ=`. -/
def scenarioBody : Reader :=
  ⟨bytesOf ("--X\r\nContent-Type: text/plain\r\n\r\nhello\r\n" ++
    "--X\r\nContent-Type: text/plain\r\nContent-Transfer-Encoding: base64\r\n\r\nd29ybGQ=\r\n" ++
    "--X--\r\n"), Error.EOF⟩

/-- The header of the scenario: `multipart/mixed` with boundary `X`. -/
def scenarioHeader : MIMEHeader := [("Content-Type", ["multipart/mixed; boundary=X"])]

/-- A multipart body with boundary `X` whose second sub-entity is itself multipart, with
boundary `Y`. -/
def nestedBody : Reader :=
  ⟨bytesOf ("--X\r\nContent-Type: text/plain\r\n\r\na\r\n" ++
    "--X\r\nContent-Type: multipart/alternative; boundary=Y\r\n\r\n" ++
    "--Y\r\n\r\nb\r\n--Y\r\nContent-Type: text/html\r\n\r\nc\r\n--Y--\r\n\r\n" ++
    "--X\r\nContent-Type: text/plain\r\n\r\nd\r\n--X--\r\n"), Error.EOF⟩


/-- A multipart body with boundary `X` whose single sub-entity declares the transfer encoding
`quoted-printable` and has the body `=41`. -/
def qpBody : Reader :=
  ⟨bytesOf ("--X\r\nContent-Type: text/plain\r\n" ++
    "Content-Transfer-Encoding: quoted-printable\r\n\r\n=41\r\n--X--\r\n"), Error.EOF⟩

/-- The header of the sub-entity of `qpBody`. -/
def qpHeader : MIMEHeader :=
  [("Content-Type", ["text/plain"]), ("Content-Transfer-Encoding", ["quoted-printable"])]

/-- A multipart body with boundary `X` that breaks off inside its second sub-entity. -/
def truncatedBody : Reader :=
  ⟨bytesOf "--X\r\nContent-Type: text/plain\r\n\r\nhello\r\n--X\r\n\r\nwor", Error.EOF⟩

/-- A multipart body with boundary `X` that breaks off inside its first sub-entity. -/
def brokenBody : Reader :=
  ⟨bytesOf "--X\r\nContent-Type: text/plain\r\n\r\nhel", Error.EOF⟩

/-- The body of a multipart entity with boundary `Y` whose single sub-entity is multipart
without a boundary parameter. -/
def innerBody : Reader :=
  ⟨bytesOf "--Y\r\nContent-Type: multipart/mixed\r\n\r\nzz\r\n--Y--\r\n", Error.EOF⟩

/-- A multipart body with boundary `X`: a plain sub-entity `a`, then a multipart sub-entity
with boundary `Y` and body `innerBody`. -/
def deepBody : Reader :=
  ⟨bytesOf ("--X\r\nContent-Type: text/plain\r\n\r\na\r\n" ++
    "--X\r\nContent-Type: multipart/mixed; boundary=Y\r\n\r\n" ++
    "--Y\r\nContent-Type: multipart/mixed\r\n\r\nzz\r\n--Y--\r\n" ++
    "\r\n--X--\r\n"), Error.EOF⟩

/-- A multipart body with boundary `X` whose first sub-entity declares `base64` and holds
`!!!!`, which is not base64, and whose second sub-entity is multipart with boundary `Y`. -/
def abortBody : Reader :=
  ⟨bytesOf ("--X\r\nContent-Transfer-Encoding: base64\r\n\r\n!!!!\r\n" ++
    "--X\r\nContent-Type: multipart/mixed; boundary=Y\r\n\r\n" ++
    "--Y\r\n\r\nb\r\n--Y--\r\n" ++
    "\r\n--X--\r\n"), Error.EOF⟩

/-- A multipart body with boundary `X`: the sub-entity `a`, a multipart sub-entity with
boundary `Y` holding `b` and then a sub-entity with a malformed content type, and the
sub-entity `d`. -/
def failingNestedBody : Reader :=
  ⟨bytesOf ("--X\r\nContent-Type: text/plain\r\n\r\na\r\n" ++
    "--X\r\nContent-Type: multipart/alternative; boundary=Y\r\n\r\n" ++
    "--Y\r\n\r\nb\r\n--Y\r\nContent-Type: text/html; charset\r\n\r\nc\r\n--Y--\r\n\r\n" ++
    "--X\r\nContent-Type: text/plain\r\n\r\nd\r\n--X--\r\n"), Error.EOF⟩

/-- The body of the multipart sub-entity of `failingNestedBody`. -/
def failingInnerBody : Reader :=
  ⟨bytesOf ("--Y\r\n\r\nb\r\n--Y\r\nContent-Type: text/html; charset\r\n\r\nc\r\n--Y--\r\n"),
    Error.EOF⟩

/-- A multipart body with boundary `X` whose two sub-entities hold the bytes `=41`, the first
with the transfer encoding `7bit`, the second with `Quoted-Printable`. -/
def mixedBody : Reader :=
  ⟨bytesOf ("--X\r\nContent-Transfer-Encoding: 7bit\r\n\r\n=41\r\n" ++
    "--X\r\nContent-Transfer-Encoding: Quoted-Printable\r\n\r\n=41\r\n--X--\r\n"), Error.EOF⟩

/-! ## Header mappings -/

theorem canonical_CONTENT_TYPE : CanonicalMIMEHeaderKey CONTENT_TYPE = CONTENT_TYPE := by
  decide

theorem canonical_CONTENT_TRANSFER_ENCODING :
    CanonicalMIMEHeaderKey CONTENT_TRANSFER_ENCODING = CONTENT_TRANSFER_ENCODING := by
  decide

theorem lookup_filter_ne (h : MIMEHeader) (k c : String) (hkc : k ≠ c) :
    (h.filter (fun kv => !(kv.1 == c))).lookup k = h.lookup k := by
  induction h with
  | nil => rfl
  | cons kv t ih =>
    obtain ⟨k1, v1⟩ := kv
    by_cases h1 : k1 = c
    · subst h1
      have hne : (k == k1) = false := by simpa using hkc
      simp [List.filter_cons, List.lookup_cons, hne, ih]
    · have h2 : (k1 == c) = false := by simpa using h1
      simp only [List.filter_cons, h2, Bool.not_false, if_true, List.lookup_cons, ih]

theorem lookup_Set_ne (h : MIMEHeader) (key value k : String)
    (hk : k ≠ CanonicalMIMEHeaderKey key) : (h.Set key value).lookup k = h.lookup k := by
  have hne : (k == CanonicalMIMEHeaderKey key) = false := by simpa using hk
  simp only [MIMEHeader.Set, List.lookup_cons, hne]
  exact lookup_filter_ne h k _ hk

theorem lookup_Set_self (h : MIMEHeader) (key value : String) :
    (h.Set key value).lookup (CanonicalMIMEHeaderKey key) = some [value] := by
  simp [MIMEHeader.Set, List.lookup_cons]

/-- Default injection leaves every field other than the content type as it was. -/
theorem lookup_injectDefault_ne (E : Env) (h : MIMEHeader) (k : String) (hk : k ≠ CONTENT_TYPE) :
    (injectDefault E h).lookup k = h.lookup k := by
  unfold injectDefault
  split
  · rfl
  · exact lookup_Set_ne h _ _ k (by rw [canonical_CONTENT_TYPE]; exact hk)

theorem Get_injectDefault_CTE (E : Env) (h : MIMEHeader) :
    (injectDefault E h).Get CONTENT_TRANSFER_ENCODING = h.Get CONTENT_TRANSFER_ENCODING := by
  unfold MIMEHeader.Get
  rw [canonical_CONTENT_TRANSFER_ENCODING, lookup_injectDefault_ne E h _ (by decide)]

theorem has_injectDefault (E : Env) (h : MIMEHeader) :
    (injectDefault E h).has CONTENT_TYPE = true := by
  unfold injectDefault
  split
  · assumption
  · have := lookup_Set_self h CONTENT_TYPE E.DefaultContentType
    rw [canonical_CONTENT_TYPE] at this
    simp [MIMEHeader.has, this]

theorem injectDefault_idem (E : Env) (h : MIMEHeader) :
    injectDefault E (injectDefault E h) = injectDefault E h := by
  have h1 := has_injectDefault E h
  generalize injectDefault E h = g at h1 ⊢
  simp [injectDefault, h1]

theorem lookup_filter_self (h : MIMEHeader) (c : String) :
    (h.filter (fun kv => !(kv.1 == c))).lookup c = none := by
  induction h with
  | nil => rfl
  | cons kv t ih =>
    obtain ⟨k1, v1⟩ := kv
    by_cases h1 : k1 = c
    · subst h1
      simp [List.filter_cons, ih]
    · have h2 : (k1 == c) = false := by simpa using h1
      have h3 : (c == k1) = false := by simpa using (Ne.symm h1)
      simp only [List.filter_cons, h2, Bool.not_false, if_true, List.lookup_cons, h3, ih]

/-- Deleting the transfer encoding leaves every other field as it was. -/
theorem lookup_Del_ne (h : MIMEHeader) (k : String) (hk : k ≠ CONTENT_TRANSFER_ENCODING) :
    (h.Del "Content-Transfer-Encoding").lookup k = h.lookup k := by
  unfold MIMEHeader.Del
  exact lookup_filter_ne h k _
    (by rw [show CanonicalMIMEHeaderKey "Content-Transfer-Encoding" =
      CONTENT_TRANSFER_ENCODING from canonical_CONTENT_TRANSFER_ENCODING]; exact hk)

theorem Get_Del_CTE (h : MIMEHeader) :
    (h.Del "Content-Transfer-Encoding").Get CONTENT_TRANSFER_ENCODING = "" := by
  unfold MIMEHeader.Get MIMEHeader.Del
  rw [show CanonicalMIMEHeaderKey "Content-Transfer-Encoding" =
      CONTENT_TRANSFER_ENCODING from canonical_CONTENT_TRANSFER_ENCODING,
    canonical_CONTENT_TRANSFER_ENCODING, lookup_filter_self]

/-- Deleting the transfer encoding does not change the content type read after default
injection. -/
theorem Get_injectDefault_Del (E : Env) (h : MIMEHeader) :
    (injectDefault E (h.Del "Content-Transfer-Encoding")).Get CONTENT_TYPE =
      (injectDefault E h).Get CONTENT_TYPE := by
  have hl := lookup_Del_ne h CONTENT_TYPE (by decide)
  unfold injectDefault
  by_cases hh : h.has CONTENT_TYPE = true
  · have hd : (h.Del "Content-Transfer-Encoding").has CONTENT_TYPE = true := by
      simpa [MIMEHeader.has, hl] using hh
    rw [if_pos hh, if_pos hd]
    unfold MIMEHeader.Get
    rw [canonical_CONTENT_TYPE, hl]
  · have hd : ¬ (h.Del "Content-Transfer-Encoding").has CONTENT_TYPE = true := by
      simpa [MIMEHeader.has, hl] using hh
    rw [if_neg hh, if_neg hd]
    unfold MIMEHeader.Get
    rw [lookup_Set_self, lookup_Set_self]

/-! ## The loop and the fuel -/

/-- The loop of `nextParts` is the iteration of `stepPart`. -/
theorem nextParts_cons (E : Env) (self : MIMEHeader → Reader → Option Result) (p : Part)
    (rest : List Part) (fin : Error) (ps : List part) :
    nextParts E self (p :: rest) fin ps =
      match stepPart E self p with
      | none => none
      | some (Except.error e) => some (ps, some e)
      | some (Except.ok out) => nextParts E self rest fin (ps ++ out) := by
  simp only [nextParts, stepPart]
  cases E.ParseMediaType ((injectDefault E p.Header).Get CONTENT_TYPE) with
  | error e => rfl
  | ok v =>
    obtain ⟨subct, sp⟩ := v
    by_cases hm : HasPrefix subct MULTIPART = true
    · simp only [hm, if_true]
      cases self (injectDefault E p.Header) p.body with
      | none => rfl
      | some r => cases hr : r.err <;> simp [hr]
    · simp only [hm, if_false]
      cases ioCopy (subReader E (injectDefault E p.Header) p.body) <;> rfl

theorem nextParts_nil (E : Env) (self : MIMEHeader → Reader → Option Result) (fin : Error)
    (ps : List part) :
    nextParts E self [] fin ps = some (ps, if fin = Error.EOF then none else some fin) := by
  simp only [nextParts]
  split <;> rfl

/-- A sub-entity that is a leaf is processed without any recursive call. -/
theorem stepPart_leaf (E : Env) (self : MIMEHeader → Reader → Option Result) (p : Part)
    (hl : IsLeaf E p) :
    stepPart E self p =
      some (match ioCopy (subReader E (injectDefault E p.Header) p.body) with
        | Except.error e => Except.error e
        | Except.ok buf => Except.ok [⟨injectDefault E p.Header, buf⟩]) := by
  obtain ⟨subct, sp, h1, h2⟩ := hl
  simp only [stepPart, h1, h2]
  cases ioCopy (subReader E (injectDefault E p.Header) p.body) <;> rfl

theorem ioCopy_eof (r : Reader) (h : r.err = Error.EOF) : ioCopy r = Except.ok r.data := by
  simp [ioCopy, h]

theorem stepPart_mono (E : Env) (self self1 : MIMEHeader → Reader → Option Result)
    (hs : ∀ h b r, self h b = some r → self1 h b = some r) (p : Part)
    (x : Except Error (List part)) (hx : stepPart E self p = some x) :
    stepPart E self1 p = some x := by
  unfold stepPart at hx ⊢
  cases hp : E.ParseMediaType ((injectDefault E p.Header).Get CONTENT_TYPE) with
  | error e => simpa [hp] using hx
  | ok v =>
    obtain ⟨subct, sp⟩ := v
    simp only [hp] at hx ⊢
    by_cases hm : HasPrefix subct MULTIPART = true
    · simp only [hm, if_true] at hx ⊢
      cases hr : self (injectDefault E p.Header) p.body with
      | none => simp [hr] at hx
      | some r =>
        rw [hs _ _ _ hr]
        simpa [hr] using hx
    · simpa [hm] using hx

theorem nextParts_mono (E : Env) (self self1 : MIMEHeader → Reader → Option Result)
    (hs : ∀ h b r, self h b = some r → self1 h b = some r) (parts : List Part) (fin : Error) :
    ∀ (ps : List part) (x : List part × Option Error),
      nextParts E self parts fin ps = some x → nextParts E self1 parts fin ps = some x := by
  induction parts with
  | nil => intro ps x hx; simpa [nextParts] using hx
  | cons p rest ih =>
    intro ps x hx
    rw [nextParts_cons] at hx ⊢
    cases hst : stepPart E self p with
    | none => simp [hst] at hx
    | some y =>
      rw [stepPart_mono E self self1 hs p y hst]
      rw [hst] at hx
      cases y with
      | error e => exact hx
      | ok out => exact ih _ _ hx

/-- One more unit of fuel does not change a result already obtained. -/
theorem parseMIMEParts_succ (E : Env) (fuel : Nat) :
    ∀ (hs : MIMEHeader) (b : Reader) (r : Result),
      parseMIMEParts E fuel hs b = some r → parseMIMEParts E (fuel + 1) hs b = some r := by
  induction fuel with
  | zero => intro hs b r h; simp [parseMIMEParts] at h
  | succ n ih =>
    intro hs b r h
    unfold parseMIMEParts at h ⊢
    cases hp : E.ParseMediaType ((injectDefault E hs).Get CONTENT_TYPE) with
    | error e => simpa [hp] using h
    | ok v =>
      obtain ⟨ct, params⟩ := v
      simp only [hp] at h ⊢
      by_cases hm : HasPrefix ct MULTIPART = true
      · simp only [hm, if_true] at h ⊢
        cases hb : params.lookup BOUNDARY with
        | none => simpa [hb] using h
        | some boundary =>
          simp only [hb] at h ⊢
          cases hn : nextParts E (parseMIMEParts E n) (E.NewReader b boundary).parts
              (E.NewReader b boundary).err [] with
          | none => simp [hn] at h
          | some x =>
            rw [nextParts_mono E _ _ ih _ _ _ _ hn]
            simpa [hn] using h
      · simpa [hm] using h

/-- A result obtained with some fuel is obtained with any larger fuel. -/
theorem parseMIMEParts_mono (E : Env) (fuel fuel1 : Nat) (hle : fuel ≤ fuel1) (hs : MIMEHeader)
    (b : Reader) (r : Result) (h : parseMIMEParts E fuel hs b = some r) :
    parseMIMEParts E fuel1 hs b = some r := by
  induction hle with
  | refl => exact h
  | step _ ih => exact parseMIMEParts_succ E _ hs b r ih

/-- The result of a call on a multipart entity is the result of the loop. -/
theorem parseMIMEParts_multipart (E : Env) (fuel : Nat) (hs : MIMEHeader) (b : Reader)
    (boundary : String) (hm : IsMultipart E hs boundary) :
    parseMIMEParts E (fuel + 1) hs b =
      match nextParts E (parseMIMEParts E fuel) (E.NewReader b boundary).parts
          (E.NewReader b boundary).err [] with
      | none => none
      | some (ps, err) => some ⟨injectDefault E hs, ps, err⟩ := by
  obtain ⟨ct, params, h1, h2, h3⟩ := hm
  simp only [parseMIMEParts, h1, h2, h3, if_true]

/-- The result of a call on an entity that is not multipart. -/
theorem parseMIMEParts_single (E : Env) (fuel : Nat) (hs : MIMEHeader) (b : Reader)
    (ct : String) (params : List (String × String))
    (hct : E.ParseMediaType ((injectDefault E hs).Get CONTENT_TYPE) = Except.ok (ct, params))
    (hm : HasPrefix ct MULTIPART = false) :
    parseMIMEParts E (fuel + 1) hs b =
      match ioCopy (topReader E (injectDefault E hs) b) with
      | Except.error e => some ⟨injectDefault E hs, [], some e⟩
      | Except.ok buf => some ⟨injectDefault E hs, [⟨injectDefault E hs, buf⟩], none⟩ := by
  simp only [parseMIMEParts, hct, hm]
  rfl


/-! ## Multipart entities: leaves in document order, flattening -/

/-- On sub-entities that are all leaves draining without error, the loop appends one part per
sub-entity, in order. -/
theorem nextParts_leaves (E : Env) (self : MIMEHeader → Reader → Option Result)
    (parts : List Part) :
    ∀ (ps : List part),
      (∀ p ∈ parts, IsLeaf E p ∧
        (subReader E (injectDefault E p.Header) p.body).err = Error.EOF) →
      nextParts E self parts Error.EOF ps = some (ps ++ parts.map (leafPart E), none) := by
  induction parts with
  | nil => intro ps _; simp [nextParts]
  | cons p rest ih =>
    intro ps hl
    have hp := hl p (List.mem_cons_self p rest)
    rw [nextParts_cons, stepPart_leaf E self p hp.1, ioCopy_eof _ hp.2]
    simp only
    rw [ih _ (fun q hq => hl q (List.mem_cons_of_mem p hq))]
    simp [leafPart]

/-- C1: for a multipart entity with a boundary whose multipart reader yields the sub-entities
`parts` and then end-of-entities, every sub-entity having a parseable non-multipart content type
and draining without error, `parseMIMEParts` succeeds with exactly `parts.length` parts, and the
part at index `i` carries the header of the `i`-th sub-entity (with the default content type when
it had none) and its transfer-decoded body: the parts are in document order. -/
theorem parseMIMEParts_leaves (E : Env) (fuel : Nat) (hs : MIMEHeader) (b : Reader)
    (boundary : String) (parts : List Part)
    (hm : IsMultipart E hs boundary)
    (hmr : E.NewReader b boundary = ⟨parts, Error.EOF⟩)
    (hleaf : ∀ p ∈ parts, IsLeaf E p ∧
      (subReader E (injectDefault E p.Header) p.body).err = Error.EOF) :
    ∃ r, parseMIMEParts E (fuel + 1) hs b = some r ∧ r.err = none ∧
      r.ps.length = parts.length ∧
      ∀ (i : Nat) (p : Part), parts[i]? = some p →
        r.ps[i]? = some (⟨injectDefault E p.Header,
          (subReader E (injectDefault E p.Header) p.body).data⟩ : part) := by
  refine ⟨⟨injectDefault E hs, parts.map (leafPart E), none⟩, ?_, rfl, by simp, ?_⟩
  · rw [parseMIMEParts_multipart E fuel hs b boundary hm, hmr]
    simp only
    rw [nextParts_leaves E _ parts [] hleaf]
    simp
  · intro i p hp
    simp [List.getElem?_map, hp, leafPart]

/-- The scenario of the spec satisfies the hypotheses of C1 and yields its two parts. -/
theorem parseMIMEParts_leaves_witness :
    ∃ r, parseMIMEParts (stdEnv exampleDefault) 1 scenarioHeader scenarioBody = some r ∧
      r.err = none ∧
      r.ps.length =
        [(⟨[("Content-Type", ["text/plain"])], ⟨bytesOf "hello", Error.EOF⟩⟩ : Part),
         ⟨[("Content-Type", ["text/plain"]), ("Content-Transfer-Encoding", ["base64"])],
          ⟨bytesOf "d29ybGQ=", Error.EOF⟩⟩].length ∧
      ∀ (i : Nat) (p : Part),
        [(⟨[("Content-Type", ["text/plain"])], ⟨bytesOf "hello", Error.EOF⟩⟩ : Part),
         ⟨[("Content-Type", ["text/plain"]), ("Content-Transfer-Encoding", ["base64"])],
          ⟨bytesOf "d29ybGQ=", Error.EOF⟩⟩][i]? = some p →
        r.ps[i]? = some (⟨injectDefault (stdEnv exampleDefault) p.Header,
          (subReader (stdEnv exampleDefault) (injectDefault (stdEnv exampleDefault) p.Header)
            p.body).data⟩ : part) :=
  parseMIMEParts_leaves (stdEnv exampleDefault) 0 scenarioHeader scenarioBody "X" _
    ⟨"multipart/mixed", [("boundary", "X")], by decide, by decide, by decide⟩
    (by decide)
    (by
      intro p hp
      simp only [List.mem_cons, List.mem_singleton, List.not_mem_nil, or_false] at hp
      rcases hp with rfl | rfl
      · exact ⟨⟨"text/plain", [], by decide, by decide⟩, by decide⟩
      · exact ⟨⟨"text/plain", [], by decide, by decide⟩, by decide⟩)

/-- When the loop ends without error, what it returns is the accumulator followed by the parts
appended for each sub-entity, in order. -/
theorem nextParts_ok (E : Env) (self : MIMEHeader → Reader → Option Result)
    (parts : List Part) (fin : Error) :
    ∀ (ps res : List part), nextParts E self parts fin ps = some (res, none) →
      ∃ outs : List (List part), res = ps ++ outs.flatten ∧
        List.Forall₂ (fun p out => stepPart E self p = some (Except.ok out)) parts outs := by
  induction parts with
  | nil =>
    intro ps res h
    rw [nextParts_nil] at h
    refine ⟨[], ?_, List.Forall₂.nil⟩
    simp only [Option.some.injEq, Prod.mk.injEq] at h
    simp [h.1]
  | cons p rest ih =>
    intro ps res h
    rw [nextParts_cons] at h
    cases hst : stepPart E self p with
    | none => simp [hst] at h
    | some y =>
      cases y with
      | error e => simp [hst] at h
      | ok out =>
        simp only [hst] at h
        obtain ⟨outs, h1, h2⟩ := ih _ _ h
        exact ⟨out :: outs, by simp [h1], List.Forall₂.cons hst h2⟩

/-- What a successful pass of the loop body appended: the single part of a leaf, or the whole
result of the recursive call on a multipart sub-entity. -/
theorem stepPart_ok (E : Env) (self : MIMEHeader → Reader → Option Result) (p : Part)
    (out : List part) (h : stepPart E self p = some (Except.ok out)) :
    (IsLeaf E p ∧ out = [leafPart E p]) ∨
    ((∃ subct subparams,
        E.ParseMediaType ((injectDefault E p.Header).Get CONTENT_TYPE) =
          Except.ok (subct, subparams) ∧ HasPrefix subct MULTIPART = true) ∧
      ∃ r1, self (injectDefault E p.Header) p.body = some r1 ∧ r1.err = none ∧ out = r1.ps) := by
  unfold stepPart at h
  cases hp : E.ParseMediaType ((injectDefault E p.Header).Get CONTENT_TYPE) with
  | error e => simp [hp] at h
  | ok v =>
    obtain ⟨subct, sp⟩ := v
    simp only [hp] at h
    by_cases hm : HasPrefix subct MULTIPART = true
    · right
      simp only [hm, if_true] at h
      refine ⟨⟨subct, sp, rfl, hm⟩, ?_⟩
      cases hr : self (injectDefault E p.Header) p.body with
      | none => simp [hr] at h
      | some r1 =>
        simp only [hr] at h
        cases he : r1.err with
        | some e => simp [he] at h
        | none =>
          simp only [he, Option.some.injEq, Except.ok.injEq] at h
          exact ⟨r1, rfl, he, h.symm⟩
    · left
      have hm1 : HasPrefix subct MULTIPART = false := by simpa using hm
      refine ⟨⟨subct, sp, hp, hm1⟩, ?_⟩
      unfold ioCopy at h
      by_cases hc : (subReader E (injectDefault E p.Header) p.body).err = Error.EOF
      · simp [hm1, hc] at h
        simp [leafPart, ← h]
      · simp [hm1, hc] at h

/-- C2: for a successfully parsed multipart entity, of any nesting depth, the returned list is
the concatenation, over the sub-entities in the order the multipart reader yields them, of the
result of `parseMIMEParts` on the sub-entity when it is multipart, and of its single leaf part
otherwise: the pre-order, depth-first flattening of the MIME tree. -/
theorem parseMIMEParts_flatten (E : Env) (fuel : Nat) (hs : MIMEHeader) (b : Reader)
    (boundary : String) (r : Result)
    (hm : IsMultipart E hs boundary)
    (hrun : parseMIMEParts E fuel hs b = some r) (hok : r.err = none) :
    ∃ outs : List (List part), r.ps = outs.flatten ∧
      List.Forall₂
        (fun p out =>
          (IsLeaf E p ∧ out = [leafPart E p]) ∨
          ((∃ subct subparams,
              E.ParseMediaType ((injectDefault E p.Header).Get CONTENT_TYPE) =
                Except.ok (subct, subparams) ∧ HasPrefix subct MULTIPART = true) ∧
            ∃ r1, parseMIMEParts E fuel (injectDefault E p.Header) p.body = some r1 ∧
              r1.err = none ∧ out = r1.ps))
        (E.NewReader b boundary).parts outs := by
  cases fuel with
  | zero => simp [parseMIMEParts] at hrun
  | succ n =>
    rw [parseMIMEParts_multipart E n hs b boundary hm] at hrun
    cases hn : nextParts E (parseMIMEParts E n) (E.NewReader b boundary).parts
        (E.NewReader b boundary).err [] with
    | none => simp [hn] at hrun
    | some x =>
      obtain ⟨ps, err⟩ := x
      simp only [hn, Option.some.injEq] at hrun
      subst hrun
      simp only at hok
      subst hok
      obtain ⟨outs, h1, h2⟩ := nextParts_ok E _ _ _ _ _ hn
      refine ⟨outs, by simpa using h1, ?_⟩
      refine List.Forall₂.imp ?_ h2
      intro p out hst
      rcases stepPart_ok E _ p out hst with h | ⟨hc, r1, hr1, he, ho⟩
      · exact Or.inl h
      · exact Or.inr ⟨hc, r1, parseMIMEParts_succ E n _ _ _ hr1, he, ho⟩

/-- A two-level document: the parts of the inner multipart stand between those of the outer
one, in the order of the bytes. -/
theorem parseMIMEParts_flatten_witness :
    parseMIMEParts (stdEnv exampleDefault) 2 scenarioHeader nestedBody =
      some ⟨scenarioHeader,
        [⟨[("Content-Type", ["text/plain"])], bytesOf "a"⟩,
         ⟨[("Content-Type", [exampleDefault])], bytesOf "b"⟩,
         ⟨[("Content-Type", ["text/html"])], bytesOf "c"⟩,
         ⟨[("Content-Type", ["text/plain"])], bytesOf "d"⟩], none⟩ ∧
    ∃ outs : List (List part),
      [(⟨[("Content-Type", ["text/plain"])], bytesOf "a"⟩ : part),
         ⟨[("Content-Type", [exampleDefault])], bytesOf "b"⟩,
         ⟨[("Content-Type", ["text/html"])], bytesOf "c"⟩,
         ⟨[("Content-Type", ["text/plain"])], bytesOf "d"⟩] = outs.flatten ∧
      List.Forall₂
        (fun p out =>
          (IsLeaf (stdEnv exampleDefault) p ∧ out = [leafPart (stdEnv exampleDefault) p]) ∨
          ((∃ subct subparams,
              (stdEnv exampleDefault).ParseMediaType
                  ((injectDefault (stdEnv exampleDefault) p.Header).Get CONTENT_TYPE) =
                Except.ok (subct, subparams) ∧ HasPrefix subct MULTIPART = true) ∧
            ∃ r1, parseMIMEParts (stdEnv exampleDefault) 2
                (injectDefault (stdEnv exampleDefault) p.Header) p.body = some r1 ∧
              r1.err = none ∧ out = r1.ps))
        ((stdEnv exampleDefault).NewReader nestedBody "X").parts outs :=
  ⟨by decide,
   parseMIMEParts_flatten (stdEnv exampleDefault) 2 scenarioHeader nestedBody "X"
    ⟨scenarioHeader,
        [⟨[("Content-Type", ["text/plain"])], bytesOf "a"⟩,
         ⟨[("Content-Type", [exampleDefault])], bytesOf "b"⟩,
         ⟨[("Content-Type", ["text/html"])], bytesOf "c"⟩,
         ⟨[("Content-Type", ["text/plain"])], bytesOf "d"⟩], none⟩
    ⟨"multipart/mixed", [("boundary", "X")], by decide, by decide, by decide⟩
    (by decide) rfl⟩


/-! ## Entities that are not multipart -/

/-- C3: for a header mapping whose content type (the default, when absent) parses to a
non-multipart media type and that has no Content-Transfer-Encoding entry, and a body stream
that reads without error, `parseMIMEParts` returns exactly one part, whose body is the raw
input bytes and whose header is the input mapping with Content-Type set to the default when it
was absent. -/
theorem parseMIMEParts_plain (E : Env) (fuel : Nat) (hs : MIMEHeader) (b : Reader)
    (ct : String) (params : List (String × String))
    (hct : E.ParseMediaType ((injectDefault E hs).Get CONTENT_TYPE) = Except.ok (ct, params))
    (hnm : HasPrefix ct MULTIPART = false)
    (hcte : hs.lookup CONTENT_TRANSFER_ENCODING = none)
    (hb : b.err = Error.EOF) :
    parseMIMEParts E (fuel + 1) hs b =
      some ⟨if hs.has CONTENT_TYPE then hs else hs.Set CONTENT_TYPE E.DefaultContentType,
        [⟨if hs.has CONTENT_TYPE then hs else hs.Set CONTENT_TYPE E.DefaultContentType,
          b.data⟩], none⟩ := by
  have hget : (injectDefault E hs).Get CONTENT_TRANSFER_ENCODING = "" := by
    rw [Get_injectDefault_CTE]
    simp [MIMEHeader.Get, canonical_CONTENT_TRANSFER_ENCODING, hcte]
  have htop : topReader E (injectDefault E hs) b = b := by
    unfold topReader
    rw [hget, if_neg (by decide), if_neg (by decide)]
  rw [parseMIMEParts_single E fuel hs b ct params hct hnm, htop, ioCopy_eof b hb]
  rfl

/-- No Content-Type and the body `abc`: one part with the default content type and the body
`abc`. -/
theorem parseMIMEParts_plain_witness :
    parseMIMEParts (stdEnv exampleDefault) 1 [] ⟨bytesOf "abc", Error.EOF⟩ =
      some ⟨[("Content-Type", ["text/plain; charset=us-ascii"])],
        [⟨[("Content-Type", ["text/plain; charset=us-ascii"])], [97, 98, 99]⟩], none⟩ :=
  parseMIMEParts_plain (stdEnv exampleDefault) 0 [] ⟨bytesOf "abc", Error.EOF⟩
    "text/plain" [("charset", "us-ascii")] (by decide) (by decide) (by decide) rfl

/-- C4: for a non-multipart entity whose Content-Transfer-Encoding value is exactly `base64`
and whose body is valid base64 (the decoder drains without error), `parseMIMEParts` returns
exactly one part, whose body is the base64 decoding of the input bytes. -/
theorem parseMIMEParts_base64 (E : Env) (fuel : Nat) (hs : MIMEHeader) (b : Reader)
    (ct : String) (params : List (String × String))
    (hct : E.ParseMediaType ((injectDefault E hs).Get CONTENT_TYPE) = Except.ok (ct, params))
    (hnm : HasPrefix ct MULTIPART = false)
    (hcte : hs.Get CONTENT_TRANSFER_ENCODING = "base64")
    (hb : (E.base64NewDecoder b).err = Error.EOF) :
    parseMIMEParts E (fuel + 1) hs b =
      some ⟨injectDefault E hs, [⟨injectDefault E hs, (E.base64NewDecoder b).data⟩], none⟩ := by
  have htop : topReader E (injectDefault E hs) b = E.base64NewDecoder b := by
    unfold topReader
    rw [Get_injectDefault_CTE, hcte, if_neg (by decide), if_pos (by decide)]
  rw [parseMIMEParts_single E fuel hs b ct params hct hnm, htop, ioCopy_eof _ hb]

/-- A top-level entity with body `d29ybGQ=` and transfer encoding `base64` gives the single
part `world`. -/
theorem parseMIMEParts_base64_witness :
    parseMIMEParts (stdEnv exampleDefault) 1
        [("Content-Type", ["text/plain"]), ("Content-Transfer-Encoding", ["base64"])]
        ⟨bytesOf "d29ybGQ=", Error.EOF⟩ =
      some ⟨[("Content-Type", ["text/plain"]), ("Content-Transfer-Encoding", ["base64"])],
        [⟨[("Content-Type", ["text/plain"]), ("Content-Transfer-Encoding", ["base64"])],
          bytesOf "world"⟩], none⟩ :=
  parseMIMEParts_base64 (stdEnv exampleDefault) 0
    [("Content-Type", ["text/plain"]), ("Content-Transfer-Encoding", ["base64"])]
    ⟨bytesOf "d29ybGQ=", Error.EOF⟩ "text/plain" [] (by decide) (by decide) (by decide)
    (by decide)

/-- C5: for a non-multipart entity whose Content-Transfer-Encoding value is exactly
`quoted-printable` and whose body decodes without error, `parseMIMEParts` returns exactly one
part, whose body is the quoted-printable decoding of the input bytes. -/
theorem parseMIMEParts_quotedprintable (E : Env) (fuel : Nat) (hs : MIMEHeader) (b : Reader)
    (ct : String) (params : List (String × String))
    (hct : E.ParseMediaType ((injectDefault E hs).Get CONTENT_TYPE) = Except.ok (ct, params))
    (hnm : HasPrefix ct MULTIPART = false)
    (hcte : hs.Get CONTENT_TRANSFER_ENCODING = "quoted-printable")
    (hb : (E.quotedprintableNewReader b).err = Error.EOF) :
    parseMIMEParts E (fuel + 1) hs b =
      some ⟨injectDefault E hs, [⟨injectDefault E hs, (E.quotedprintableNewReader b).data⟩],
        none⟩ := by
  have htop : topReader E (injectDefault E hs) b = E.quotedprintableNewReader b := by
    unfold topReader
    rw [Get_injectDefault_CTE, hcte, if_pos (by decide)]
  rw [parseMIMEParts_single E fuel hs b ct params hct hnm, htop, ioCopy_eof _ hb]

/-- A top-level entity with body `caf=C3=A9 =3D ok` and transfer encoding `quoted-printable`
gives the single part with the decoded bytes. -/
theorem parseMIMEParts_quotedprintable_witness :
    parseMIMEParts (stdEnv exampleDefault) 1
        [("Content-Transfer-Encoding", ["quoted-printable"])]
        ⟨bytesOf "caf=C3=A9 =3D=\r\n ok", Error.EOF⟩ =
      some ⟨[("Content-Type", [exampleDefault]),
          ("Content-Transfer-Encoding", ["quoted-printable"])],
        [⟨[("Content-Type", [exampleDefault]),
            ("Content-Transfer-Encoding", ["quoted-printable"])],
          [99, 97, 102, 195, 169, 32, 61, 32, 111, 107]⟩], none⟩ :=
  parseMIMEParts_quotedprintable (stdEnv exampleDefault) 0
    [("Content-Transfer-Encoding", ["quoted-printable"])]
    ⟨bytesOf "caf=C3=A9 =3D=\r\n ok", Error.EOF⟩ "text/plain" [("charset", "us-ascii")]
    (by decide) (by decide) (by decide) (by decide)


/-! ## Transfer encodings of sub-entities -/

/-- The loop's result extends the accumulator it was entered with. -/
theorem nextParts_extends (E : Env) (self : MIMEHeader → Reader → Option Result)
    (parts : List Part) (fin : Error) :
    ∀ (ps res : List part) (err : Option Error),
      nextParts E self parts fin ps = some (res, err) → ∃ tail, res = ps ++ tail := by
  induction parts with
  | nil =>
    intro ps res err h
    rw [nextParts_nil] at h
    simp only [Option.some.injEq, Prod.mk.injEq] at h
    exact ⟨[], by simp [h.1]⟩
  | cons p rest ih =>
    intro ps res err h
    rw [nextParts_cons] at h
    cases hst : stepPart E self p with
    | none => simp [hst] at h
    | some y =>
      cases y with
      | error e =>
        simp only [hst, Option.some.injEq, Prod.mk.injEq] at h
        exact ⟨[], by simp [h.1]⟩
      | ok out =>
        simp only [hst] at h
        obtain ⟨tail, ht⟩ := ih _ _ _ h
        exact ⟨out ++ tail, by simp [ht]⟩

/-- Once the sub-entities `pre` have been processed without error, giving `acc`, the loop goes
on with what follows them. -/
theorem nextParts_append (E : Env) (self : MIMEHeader → Reader → Option Result)
    (pre : List Part) :
    ∀ (ps acc : List part), nextParts E self pre Error.EOF ps = some (acc, none) →
      ∀ (l : List Part) (fin : Error),
        nextParts E self (pre ++ l) fin ps = nextParts E self l fin acc := by
  induction pre with
  | nil =>
    intro ps acc h l fin
    rw [nextParts_nil] at h
    simp only [Option.some.injEq, Prod.mk.injEq] at h
    simp [h.1]
  | cons p rest ih =>
    intro ps acc h l fin
    rw [nextParts_cons] at h
    rw [List.cons_append, nextParts_cons]
    cases hst : stepPart E self p with
    | none => simp [hst] at h
    | some y =>
      cases y with
      | error e => simp [hst] at h
      | ok out =>
        simp only [hst] at h ⊢
        exact ih _ _ h l fin

/-- C6: a leaf sub-entity of a multipart entity whose own Content-Transfer-Encoding value is
exactly `base64` and whose body is valid base64 is emitted as one part with the sub-entity's
header and the base64 decoding of its bytes; in the list the call returns, that part follows
the parts `acc` of the sub-entities before it. -/
theorem parseMIMEParts_sub_base64 (E : Env) (fuel : Nat) (hs : MIMEHeader) (b : Reader)
    (boundary : String) (pre post : List Part) (p : Part) (acc : List part)
    (hm : IsMultipart E hs boundary)
    (hparts : (E.NewReader b boundary).parts = pre ++ p :: post)
    (hpre : nextParts E (parseMIMEParts E fuel) pre Error.EOF [] = some (acc, none))
    (hl : IsLeaf E p)
    (hcte : p.Header.Get CONTENT_TRANSFER_ENCODING = "base64")
    (hb : (E.base64NewDecoder p.body).err = Error.EOF) :
    stepPart E (parseMIMEParts E fuel) p =
      some (Except.ok [⟨injectDefault E p.Header, (E.base64NewDecoder p.body).data⟩]) ∧
    ∀ r, parseMIMEParts E (fuel + 1) hs b = some r →
      ∃ tail, r.ps =
        acc ++ ⟨injectDefault E p.Header, (E.base64NewDecoder p.body).data⟩ :: tail := by
  have hsub : subReader E (injectDefault E p.Header) p.body = E.base64NewDecoder p.body := by
    unfold subReader
    rw [Get_injectDefault_CTE, hcte, if_pos (by decide)]
  have hstep : stepPart E (parseMIMEParts E fuel) p =
      some (Except.ok [⟨injectDefault E p.Header, (E.base64NewDecoder p.body).data⟩]) := by
    rw [stepPart_leaf E _ p hl, hsub, ioCopy_eof _ hb]
  refine ⟨hstep, ?_⟩
  intro r hr
  rw [parseMIMEParts_multipart E fuel hs b boundary hm, hparts,
    nextParts_append E _ pre [] acc hpre, nextParts_cons, hstep] at hr
  simp only at hr
  cases hn : nextParts E (parseMIMEParts E fuel) post (E.NewReader b boundary).err
      (acc ++ [⟨injectDefault E p.Header, (E.base64NewDecoder p.body).data⟩]) with
  | none => simp [hn] at hr
  | some x =>
    obtain ⟨res, err⟩ := x
    obtain ⟨tail, ht⟩ := nextParts_extends E _ _ _ _ _ _ hn
    simp only [hn, Option.some.injEq] at hr
    subst hr
    exact ⟨tail, by simp [ht]⟩

/-- The scenario of the spec: `multipart/mixed` with boundary `X`, sub-parts `hello` and base64
`d29ybGQ=`, gives the bodies `hello` and `world`, in that order. -/
theorem parseMIMEParts_sub_base64_witness :
    parseMIMEParts (stdEnv exampleDefault) 1 scenarioHeader scenarioBody =
      some ⟨scenarioHeader,
        [⟨[("Content-Type", ["text/plain"])], bytesOf "hello"⟩,
         ⟨[("Content-Type", ["text/plain"]), ("Content-Transfer-Encoding", ["base64"])],
          bytesOf "world"⟩], none⟩ ∧
    (stepPart (stdEnv exampleDefault) (parseMIMEParts (stdEnv exampleDefault) 0)
        ⟨[("Content-Type", ["text/plain"]), ("Content-Transfer-Encoding", ["base64"])],
          ⟨bytesOf "d29ybGQ=", Error.EOF⟩⟩ =
      some (Except.ok
        [⟨[("Content-Type", ["text/plain"]), ("Content-Transfer-Encoding", ["base64"])],
          bytesOf "world"⟩]) ∧
    ∀ r, parseMIMEParts (stdEnv exampleDefault) 1 scenarioHeader scenarioBody = some r →
      ∃ tail, r.ps =
        [⟨[("Content-Type", ["text/plain"])], bytesOf "hello"⟩] ++
          ⟨[("Content-Type", ["text/plain"]), ("Content-Transfer-Encoding", ["base64"])],
            bytesOf "world"⟩ :: tail) :=
  ⟨by decide,
   parseMIMEParts_sub_base64 (stdEnv exampleDefault) 0 scenarioHeader scenarioBody "X"
    [⟨[("Content-Type", ["text/plain"])], ⟨bytesOf "hello", Error.EOF⟩⟩] []
    ⟨[("Content-Type", ["text/plain"]), ("Content-Transfer-Encoding", ["base64"])],
      ⟨bytesOf "d29ybGQ=", Error.EOF⟩⟩
    [⟨[("Content-Type", ["text/plain"])], bytesOf "hello"⟩]
    ⟨"multipart/mixed", [("boundary", "X")], by decide, by decide, by decide⟩
    (by decide) (by decide) ⟨"text/plain", [], by decide, by decide⟩ (by decide) (by decide)⟩

/-- The part emitted for a sub-entity follows, in the list the call returns, the parts `acc`
of the sub-entities before it. -/
theorem parseMIMEParts_emits (E : Env) (fuel : Nat) (hs : MIMEHeader) (b : Reader)
    (boundary : String) (pre post : List Part) (p : Part) (acc out : List part)
    (hm : IsMultipart E hs boundary)
    (hparts : (E.NewReader b boundary).parts = pre ++ p :: post)
    (hpre : nextParts E (parseMIMEParts E fuel) pre Error.EOF [] = some (acc, none))
    (hstep : stepPart E (parseMIMEParts E fuel) p = some (Except.ok out)) :
    ∀ r, parseMIMEParts E (fuel + 1) hs b = some r → ∃ tail, r.ps = acc ++ out ++ tail := by
  intro r hr
  rw [parseMIMEParts_multipart E fuel hs b boundary hm, hparts,
    nextParts_append E _ pre [] acc hpre, nextParts_cons, hstep] at hr
  simp only at hr
  cases hn : nextParts E (parseMIMEParts E fuel) post (E.NewReader b boundary).err
      (acc ++ out) with
  | none => simp [hn] at hr
  | some x =>
    obtain ⟨res, err⟩ := x
    obtain ⟨tail, ht⟩ := nextParts_extends E _ _ _ _ _ _ hn
    simp only [hn, Option.some.injEq] at hr
    subst hr
    exact ⟨tail, by simp [ht]⟩

/-- A sub-entity that `newPart` leaves as it is: its transfer encoding is not
`quoted-printable` in any letter case. -/
theorem newPart_other (qp : Reader → Reader) (raw : Part)
    (hf : EqualFold (raw.Header.Get "Content-Transfer-Encoding") "quoted-printable" = false) :
    newPart qp raw = raw := by
  unfold newPart
  rw [hf]
  rfl

/-- A sub-entity that `newPart` decodes: its transfer encoding is `quoted-printable` in some
letter case. -/
theorem newPart_fold (qp : Reader → Reader) (raw : Part)
    (hf : EqualFold (raw.Header.Get "Content-Transfer-Encoding") "quoted-printable" = true) :
    newPart qp raw = ⟨raw.Header.Del "Content-Transfer-Encoding", qp raw.body⟩ := by
  unfold newPart
  rw [hf]
  rfl

/-- A leaf sub-entity whose stream the loop leaves as it is and which ends cleanly is emitted
with the bytes of that stream. -/
theorem stepPart_passthrough (E : Env) (self : MIMEHeader → Reader → Option Result) (p : Part)
    (hl : IsLeaf E p) (hcte : p.Header.Get CONTENT_TRANSFER_ENCODING ≠ BASE_64)
    (hb : p.body.err = Error.EOF) :
    stepPart E self p = some (Except.ok [⟨injectDefault E p.Header, p.body.data⟩]) := by
  have hsub : subReader E (injectDefault E p.Header) p.body = p.body := by
    unfold subReader
    rw [Get_injectDefault_CTE, if_neg hcte]
  rw [stepPart_leaf E self p hl, hsub, ioCopy_eof _ hb]

/-- A leaf sub-entity whose transfer encoding is `quoted-printable` in some letter case and
whose body decodes without error: the part `NextPart` yields for it is emitted with the
sub-entity's header without that field and the quoted-printable decoding of its bytes. -/
theorem stepPart_newPart_fold (E : Env) (self : MIMEHeader → Reader → Option Result)
    (raw : Part) (hl : IsLeaf E raw)
    (hf : EqualFold (raw.Header.Get "Content-Transfer-Encoding") "quoted-printable" = true)
    (hq : (E.quotedprintableNewReader raw.body).err = Error.EOF) :
    stepPart E self (newPart E.quotedprintableNewReader raw) =
      some (Except.ok [⟨injectDefault E (raw.Header.Del "Content-Transfer-Encoding"),
        (E.quotedprintableNewReader raw.body).data⟩]) := by
  rw [newPart_fold _ raw hf]
  obtain ⟨subct, sp, h1, h2⟩ := hl
  exact stepPart_passthrough E self
    ⟨raw.Header.Del "Content-Transfer-Encoding", E.quotedprintableNewReader raw.body⟩
    ⟨subct, sp, by rw [Get_injectDefault_Del]; exact h1, h2⟩
    (by
      show ¬ (raw.Header.Del "Content-Transfer-Encoding").Get CONTENT_TRANSFER_ENCODING = BASE_64
      rw [Get_Del_CTE]
      decide)
    hq

/-- A top-level non-multipart entity whose transfer encoding is exactly `quoted-printable` and
whose body decodes without error gives one part with the quoted-printable decoding of its
bytes. -/
theorem parseMIMEParts_top_quotedprintable (E : Env) (fuel : Nat) (p : Part)
    (hl : IsLeaf E p)
    (hcte : p.Header.Get CONTENT_TRANSFER_ENCODING = "quoted-printable")
    (hq : (E.quotedprintableNewReader p.body).err = Error.EOF) :
    parseMIMEParts E (fuel + 1) p.Header p.body =
      some ⟨injectDefault E p.Header,
        [⟨injectDefault E p.Header, (E.quotedprintableNewReader p.body).data⟩], none⟩ := by
  have htop : topReader E (injectDefault E p.Header) p.body =
      E.quotedprintableNewReader p.body := by
    unfold topReader
    rw [Get_injectDefault_CTE, hcte, if_pos (by decide)]
  obtain ⟨subct, sp, h1, h2⟩ := hl
  rw [parseMIMEParts_single E fuel p.Header p.body subct sp h1 h2, htop, ioCopy_eof _ hq]

/-- C7: quoted-printable decoding reaches every leaf. Let `raw` be a leaf sub-entity of a
multipart entity, as it stands in the body, whose own Content-Transfer-Encoding value is
exactly `quoted-printable` and whose bytes decode without error; `NextPart` (line 42) yields
it as `newPart` makes it. The part emitted for it has as body the quoted-printable decoding of
the sub-entity's bytes, it follows in the returned list the parts `acc` of the sub-entities
before it, and a top-level non-multipart entity with the same header and bytes gives one part
with the same body. -/
theorem parseMIMEParts_sub_quotedprintable (E : Env) (fuel : Nat) (hs : MIMEHeader)
    (b : Reader) (boundary : String) (pre post : List Part) (raw : Part) (acc : List part)
    (hm : IsMultipart E hs boundary)
    (hparts : (E.NewReader b boundary).parts =
      pre ++ newPart E.quotedprintableNewReader raw :: post)
    (hpre : nextParts E (parseMIMEParts E fuel) pre Error.EOF [] = some (acc, none))
    (hl : IsLeaf E raw)
    (hcte : raw.Header.Get CONTENT_TRANSFER_ENCODING = "quoted-printable")
    (hq : (E.quotedprintableNewReader raw.body).err = Error.EOF) :
    (∃ hdr, stepPart E (parseMIMEParts E fuel) (newPart E.quotedprintableNewReader raw) =
        some (Except.ok [⟨hdr, (E.quotedprintableNewReader raw.body).data⟩]) ∧
      ∀ r, parseMIMEParts E (fuel + 1) hs b = some r →
        ∃ tail, r.ps = acc ++ ⟨hdr, (E.quotedprintableNewReader raw.body).data⟩ :: tail) ∧
    parseMIMEParts E (fuel + 1) raw.Header raw.body =
      some ⟨injectDefault E raw.Header,
        [⟨injectDefault E raw.Header, (E.quotedprintableNewReader raw.body).data⟩], none⟩ := by
  have hf : EqualFold (raw.Header.Get "Content-Transfer-Encoding") "quoted-printable" = true := by
    have h1 : raw.Header.Get "Content-Transfer-Encoding" = "quoted-printable" := hcte
    rw [h1]
    decide
  have hstep := stepPart_newPart_fold E (parseMIMEParts E fuel) raw hl hf hq
  refine ⟨⟨injectDefault E (raw.Header.Del "Content-Transfer-Encoding"), hstep, ?_⟩,
    parseMIMEParts_top_quotedprintable E fuel raw hl hcte hq⟩
  intro r hr
  obtain ⟨tail, ht⟩ := parseMIMEParts_emits E fuel hs b boundary pre post _ acc _ hm hparts
    hpre hstep r hr
  exact ⟨tail, by simp [ht]⟩

/-- The sub-entity `=41` of `qpBody`, with transfer encoding `quoted-printable`: the part
emitted for it holds `A`, as does the part of a top-level entity with the same header and
bytes. -/
theorem parseMIMEParts_sub_quotedprintable_witness :
    (NewRawReader qpBody "X").parts = [⟨qpHeader, ⟨bytesOf "=41", Error.EOF⟩⟩] ∧
    parseMIMEParts (stdEnv exampleDefault) 1 scenarioHeader qpBody =
      some ⟨scenarioHeader, [⟨[("Content-Type", ["text/plain"])], bytesOf "A"⟩], none⟩ ∧
    ((∃ hdr, stepPart (stdEnv exampleDefault) (parseMIMEParts (stdEnv exampleDefault) 0)
          (newPart quotedprintableNewReader ⟨qpHeader, ⟨bytesOf "=41", Error.EOF⟩⟩) =
        some (Except.ok [⟨hdr, [65]⟩]) ∧
      ∀ r, parseMIMEParts (stdEnv exampleDefault) 1 scenarioHeader qpBody = some r →
        ∃ tail, r.ps = [] ++ ⟨hdr, [65]⟩ :: tail) ∧
    parseMIMEParts (stdEnv exampleDefault) 1 qpHeader ⟨bytesOf "=41", Error.EOF⟩ =
      some ⟨qpHeader, [⟨qpHeader, [65]⟩], none⟩) :=
  ⟨by decide, by decide,
   parseMIMEParts_sub_quotedprintable (stdEnv exampleDefault) 0 scenarioHeader qpBody "X"
    [] [] ⟨qpHeader, ⟨bytesOf "=41", Error.EOF⟩⟩ []
    ⟨"multipart/mixed", [("boundary", "X")], by decide, by decide, by decide⟩
    (by decide) (by decide) ⟨"text/plain", [], by decide, by decide⟩ (by decide) (by decide)⟩

/-! ## Errors -/

/-- C8: for a header mapping whose content type parses to a media type with the multipart
prefix and whose parameters have no `boundary` key, and for every body stream `b`,
`parseMIMEParts` fails with `ErrMissingBoundary` and an empty part list; the outcome does not
depend on `b`, whether it can be read or not. -/
theorem parseMIMEParts_missing_boundary (E : Env) (fuel : Nat) (hs : MIMEHeader) (b : Reader)
    (ct : String) (params : List (String × String))
    (hct : E.ParseMediaType ((injectDefault E hs).Get CONTENT_TYPE) = Except.ok (ct, params))
    (hmp : HasPrefix ct MULTIPART = true)
    (hbd : params.lookup BOUNDARY = none) :
    parseMIMEParts E (fuel + 1) hs b =
      some ⟨injectDefault E hs, [], some Error.ErrMissingBoundary⟩ := by
  simp only [parseMIMEParts, hct, hmp, hbd, if_true]

/-- The header `multipart/mixed; charset=utf-8` has no boundary: a well-formed multipart body
and a stream that fails on its first read both give `ErrMissingBoundary` and no part. -/
theorem parseMIMEParts_missing_boundary_witness :
    parseMIMEParts (stdEnv exampleDefault) 1
        [("Content-Type", ["multipart/mixed; charset=utf-8"])] scenarioBody =
      some ⟨[("Content-Type", ["multipart/mixed; charset=utf-8"])], [],
        some Error.ErrMissingBoundary⟩ ∧
    parseMIMEParts (stdEnv exampleDefault) 1
        [("Content-Type", ["multipart/mixed; charset=utf-8"])]
        ⟨[], Error.other "read failure"⟩ =
      some ⟨[("Content-Type", ["multipart/mixed; charset=utf-8"])], [],
        some Error.ErrMissingBoundary⟩ :=
  ⟨parseMIMEParts_missing_boundary (stdEnv exampleDefault) 0
      [("Content-Type", ["multipart/mixed; charset=utf-8"])] scenarioBody "multipart/mixed"
      [("charset", "utf-8")] (by decide) (by decide) (by decide),
   parseMIMEParts_missing_boundary (stdEnv exampleDefault) 0
      [("Content-Type", ["multipart/mixed; charset=utf-8"])] ⟨[], Error.other "read failure"⟩
      "multipart/mixed" [("charset", "utf-8")] (by decide) (by decide) (by decide)⟩

/-- The claim C9 fails on the code: the body `truncatedBody` breaks off inside its second
sub-entity, and the error is returned together with the part of the first one. -/
theorem partial_list_counterexample :
    parseMIMEParts (stdEnv exampleDefault) 1 scenarioHeader truncatedBody =
      some ⟨scenarioHeader, [⟨[("Content-Type", ["text/plain"])], bytesOf "hello"⟩],
        some (Error.other "unexpected EOF")⟩ := by
  decide

/-- C9, amended: whenever `parseMIMEParts` returns an error and no first sub-entity of the
entity was processed successfully before it (the failing step is the content-type parse, the
boundary check, the drain of a top-level leaf, the first `NextPart` call or the processing of
the first sub-entity), the part list returned alongside the error is empty. -/
theorem parseMIMEParts_error_empty (E : Env) (fuel : Nat) (hs : MIMEHeader) (b : Reader)
    (r : Result)
    (hrun : parseMIMEParts E (fuel + 1) hs b = some r)
    (herr : r.err ≠ none)
    (hfirst : ¬ ∃ boundary p rest out, IsMultipart E hs boundary ∧
      (E.NewReader b boundary).parts = p :: rest ∧
      stepPart E (parseMIMEParts E fuel) p = some (Except.ok out)) :
    r.ps = [] := by
  cases hp : E.ParseMediaType ((injectDefault E hs).Get CONTENT_TYPE) with
  | error e =>
    simp only [parseMIMEParts, hp, Option.some.injEq] at hrun
    rw [← hrun]
  | ok v =>
    obtain ⟨ct, params⟩ := v
    by_cases hm : HasPrefix ct MULTIPART = true
    · cases hb : params.lookup BOUNDARY with
      | none =>
        simp only [parseMIMEParts, hp, hm, hb, if_true, Option.some.injEq] at hrun
        rw [← hrun]
      | some boundary =>
        have hmp : IsMultipart E hs boundary := ⟨ct, params, hp, hm, hb⟩
        rw [parseMIMEParts_multipart E fuel hs b boundary hmp] at hrun
        cases hparts : (E.NewReader b boundary).parts with
        | nil =>
          rw [hparts, nextParts_nil] at hrun
          simp only [Option.some.injEq] at hrun
          rw [← hrun]
        | cons p rest =>
          rw [hparts, nextParts_cons] at hrun
          cases hst : stepPart E (parseMIMEParts E fuel) p with
          | none => simp [hst] at hrun
          | some y =>
            cases y with
            | error e =>
              simp only [hst, Option.some.injEq] at hrun
              rw [← hrun]
            | ok out => exact absurd ⟨boundary, p, rest, out, hmp, hparts, hst⟩ hfirst
    · have hm1 : HasPrefix ct MULTIPART = false := by simpa using hm
      rw [parseMIMEParts_single E fuel hs b ct params hp hm1] at hrun
      cases hc : ioCopy (topReader E (injectDefault E hs) b) with
      | error e =>
        simp only [hc, Option.some.injEq] at hrun
        rw [← hrun]
      | ok buf =>
        simp only [hc, Option.some.injEq] at hrun
        rw [← hrun] at herr
        exact absurd rfl herr

/-- The body `brokenBody` breaks off inside its first sub-entity: the error comes with an
empty list. -/
theorem parseMIMEParts_error_empty_witness :
    parseMIMEParts (stdEnv exampleDefault) 1 scenarioHeader brokenBody =
      some ⟨scenarioHeader, [], some (Error.other "unexpected EOF")⟩ ∧
    (⟨scenarioHeader, [], some (Error.other "unexpected EOF")⟩ : Result).ps = [] :=
  ⟨by decide,
   parseMIMEParts_error_empty (stdEnv exampleDefault) 0 scenarioHeader brokenBody
    ⟨scenarioHeader, [], some (Error.other "unexpected EOF")⟩ (by decide) (by decide)
    (by
      rintro ⟨boundary, p, rest, out, ⟨ct, params, h1, _, h3⟩, hparts, hst⟩
      have h1a : (stdEnv exampleDefault).ParseMediaType
          ((injectDefault (stdEnv exampleDefault) scenarioHeader).Get CONTENT_TYPE) =
          Except.ok ("multipart/mixed", [("boundary", "X")]) := by decide
      rw [h1a] at h1
      simp only [Except.ok.injEq, Prod.mk.injEq] at h1
      obtain ⟨rfl, rfl⟩ := h1
      have h3a : List.lookup BOUNDARY [("boundary", "X")] = some "X" := by decide
      rw [h3a] at h3
      simp only [Option.some.injEq] at h3
      subst h3
      have hpa : ((stdEnv exampleDefault).NewReader brokenBody "X").parts =
          [⟨[("Content-Type", ["text/plain"])],
            ⟨bytesOf "hel", Error.other "unexpected EOF"⟩⟩] := by decide
      rw [hpa] at hparts
      simp only [List.cons.injEq] at hparts
      obtain ⟨rfl, _⟩ := hparts
      have hsa : stepPart (stdEnv exampleDefault) (parseMIMEParts (stdEnv exampleDefault) 0)
          ⟨[("Content-Type", ["text/plain"])],
            ⟨bytesOf "hel", Error.other "unexpected EOF"⟩⟩ =
          some (Except.error (Error.other "unexpected EOF")) := by decide
      rw [hsa] at hst
      simp at hst)⟩


/-! ## Propagation of errors -/

theorem stepPart_fuel (E : Env) (f f1 : Nat) (hle : f ≤ f1) (q : Part)
    (x : Except Error (List part)) (h : stepPart E (parseMIMEParts E f) q = some x) :
    stepPart E (parseMIMEParts E f1) q = some x :=
  stepPart_mono E _ _ (fun hs b r hr => parseMIMEParts_mono E f f1 hle hs b r hr) q x h

/-- Sub-entities that are each processed without error with some fuel are all processed
without error from a common fuel on. -/
theorem succeeds_common (E : Env) (pre : List Part) (hpre : ∀ q ∈ pre, Succeeds E q) :
    ∃ f, ∀ f1, f ≤ f1 → ∀ q ∈ pre,
      ∃ out, stepPart E (parseMIMEParts E f1) q = some (Except.ok out) := by
  induction pre with
  | nil => exact ⟨0, fun _ _ q hq => absurd hq (List.not_mem_nil q)⟩
  | cons p rest ih =>
    obtain ⟨f, hf⟩ := ih (fun q hq => hpre q (List.mem_cons_of_mem p hq))
    obtain ⟨g, out, hg⟩ := hpre p (List.mem_cons_self p rest)
    refine ⟨max f g, ?_⟩
    intro f1 hle q hq
    rcases List.mem_cons.mp hq with rfl | hq1
    · exact ⟨out, stepPart_fuel E g f1 (le_trans (le_max_right f g) hle) _ _ hg⟩
    · exact hf f1 (le_trans (le_max_left f g) hle) q hq1

/-- Sub-entities each processed without error take the loop through without error. -/
theorem nextParts_pre (E : Env) (self : MIMEHeader → Reader → Option Result)
    (pre : List Part)
    (hpre : ∀ q ∈ pre, ∃ out, stepPart E self q = some (Except.ok out)) :
    ∀ ps : List part, ∃ acc, nextParts E self pre Error.EOF ps = some (acc, none) := by
  induction pre with
  | nil => intro ps; exact ⟨ps, by simp [nextParts]⟩
  | cons p rest ih =>
    intro ps
    obtain ⟨out, ho⟩ := hpre p (List.mem_cons_self p rest)
    obtain ⟨acc, ha⟩ := ih (fun q hq => hpre q (List.mem_cons_of_mem p hq)) (ps ++ out)
    exact ⟨acc, by rw [nextParts_cons, ho]; exact ha⟩

/-- The call on a multipart entity returns the error of the first sub-entity that fails. -/
theorem parseMIMEParts_fails_at (E : Env) (n : Nat) (hs : MIMEHeader) (b : Reader)
    (boundary : String) (pre : List Part) (p : Part) (post : List Part) (e : Error)
    (hm : IsMultipart E hs boundary)
    (hparts : (E.NewReader b boundary).parts = pre ++ p :: post)
    (hpre : ∀ q ∈ pre, ∃ out, stepPart E (parseMIMEParts E n) q = some (Except.ok out))
    (hp : stepPart E (parseMIMEParts E n) p = some (Except.error e)) :
    ∃ r, parseMIMEParts E (n + 1) hs b = some r ∧ r.err = some e := by
  obtain ⟨acc, ha⟩ := nextParts_pre E _ pre hpre []
  refine ⟨⟨injectDefault E hs, acc, some e⟩, ?_, rfl⟩
  rw [parseMIMEParts_multipart E n hs b boundary hm, hparts,
    nextParts_append E _ pre [] acc ha, nextParts_cons, hp]

/-- C10: errors are fatal and propagate unchanged. If the first failing step in document order
(the parse of the content type, the boundary check, a `NextPart` call that returns an error
other than end-of-entities, the parse of a sub-entity's content type, the drain of a leaf, or a
step inside the recursive call on a nested multipart) fails with the error `e`, at any nesting
depth `d` below the call, then `parseMIMEParts` returns, and returns exactly `e`. -/
theorem parseMIMEParts_propagates (E : Env) (d : Nat) (hs : MIMEHeader) (b : Reader)
    (e : Error) (h : Raises E d hs b e) :
    ∃ fuel, ∀ fuel1, fuel ≤ fuel1 →
      ∃ r, parseMIMEParts E fuel1 hs b = some r ∧ r.err = some e := by
  induction h with
  | contentType hs b e h =>
    refine ⟨1, fun fuel1 hle => ?_⟩
    obtain ⟨n, rfl⟩ : ∃ n, fuel1 = n + 1 := ⟨fuel1 - 1, by omega⟩
    exact ⟨⟨injectDefault E hs, [], some e⟩, by simp only [parseMIMEParts, h], rfl⟩
  | missingBoundary hs b ct params h hm hb =>
    refine ⟨1, fun fuel1 hle => ?_⟩
    obtain ⟨n, rfl⟩ : ∃ n, fuel1 = n + 1 := ⟨fuel1 - 1, by omega⟩
    exact ⟨⟨injectDefault E hs, [], some Error.ErrMissingBoundary⟩,
      by simp only [parseMIMEParts, h, hm, hb, if_true], rfl⟩
  | topDrain hs b ct params e h hm hd =>
    refine ⟨1, fun fuel1 hle => ?_⟩
    obtain ⟨n, rfl⟩ : ∃ n, fuel1 = n + 1 := ⟨fuel1 - 1, by omega⟩
    exact ⟨⟨injectDefault E hs, [], some e⟩,
      by rw [parseMIMEParts_single E n hs b ct params h hm, hd], rfl⟩
  | nextPart hs b boundary e hm hall he hne =>
    obtain ⟨f, hf⟩ := succeeds_common E _ hall
    refine ⟨f + 1, fun fuel1 hle => ?_⟩
    obtain ⟨n, rfl⟩ : ∃ n, fuel1 = n + 1 := ⟨fuel1 - 1, by omega⟩
    obtain ⟨acc, ha⟩ := nextParts_pre E _ _ (hf n (by omega)) []
    refine ⟨⟨injectDefault E hs, acc, some e⟩, ?_, rfl⟩
    have hnil := nextParts_append E (parseMIMEParts E n) _ [] acc ha [] e
    rw [List.append_nil, nextParts_nil, if_neg hne] at hnil
    rw [parseMIMEParts_multipart E n hs b boundary hm, he, hnil]
  | subContentType hs b boundary pre p post e hm hparts hpre h =>
    obtain ⟨f, hf⟩ := succeeds_common E _ hpre
    refine ⟨f + 1, fun fuel1 hle => ?_⟩
    obtain ⟨n, rfl⟩ : ∃ n, fuel1 = n + 1 := ⟨fuel1 - 1, by omega⟩
    exact parseMIMEParts_fails_at E n hs b boundary pre p post e hm hparts (hf n (by omega))
      (by simp only [stepPart, h])
  | subDrain hs b boundary pre p post e hm hparts hpre hl hd =>
    obtain ⟨f, hf⟩ := succeeds_common E _ hpre
    refine ⟨f + 1, fun fuel1 hle => ?_⟩
    obtain ⟨n, rfl⟩ : ∃ n, fuel1 = n + 1 := ⟨fuel1 - 1, by omega⟩
    exact parseMIMEParts_fails_at E n hs b boundary pre p post e hm hparts (hf n (by omega))
      (by rw [stepPart_leaf E _ p hl, hd])
  | nested d hs b boundary pre p post e subct subparams hm hparts hpre hct hmp _ ih =>
    obtain ⟨f, hf⟩ := succeeds_common E _ hpre
    obtain ⟨g, hg⟩ := ih
    refine ⟨max f g + 1, fun fuel1 hle => ?_⟩
    obtain ⟨n, rfl⟩ : ∃ n, fuel1 = n + 1 := ⟨fuel1 - 1, by omega⟩
    have hfn : f ≤ n := le_trans (le_max_left f g) (by omega)
    have hgn : g ≤ n := le_trans (le_max_right f g) (by omega)
    obtain ⟨r1, hr1, he1⟩ := hg n hgn
    exact parseMIMEParts_fails_at E n hs b boundary pre p post e hm hparts (hf n hfn)
      (by simp only [stepPart, hct, hmp, if_true, hr1, he1])

/-- An error raised two levels down: in `deepBody` the multipart sub-entity with boundary `Y`
holds a multipart sub-entity without boundary, and the missing-boundary error of that
innermost entity is the error of the outermost call. -/
theorem parseMIMEParts_propagates_witness :
    parseMIMEParts (stdEnv exampleDefault) 3 scenarioHeader deepBody =
      some ⟨scenarioHeader, [⟨[("Content-Type", ["text/plain"])], bytesOf "a"⟩],
        some Error.ErrMissingBoundary⟩ ∧
    ∃ fuel, ∀ fuel1, fuel ≤ fuel1 →
      ∃ r, parseMIMEParts (stdEnv exampleDefault) fuel1 scenarioHeader deepBody = some r ∧
        r.err = some Error.ErrMissingBoundary :=
  ⟨by decide,
   parseMIMEParts_propagates (stdEnv exampleDefault) 2 scenarioHeader deepBody
    Error.ErrMissingBoundary
    (Raises.nested 1 scenarioHeader deepBody "X"
      [⟨[("Content-Type", ["text/plain"])], ⟨bytesOf "a", Error.EOF⟩⟩]
      ⟨[("Content-Type", ["multipart/mixed; boundary=Y"])], innerBody⟩ []
      Error.ErrMissingBoundary "multipart/mixed" [("boundary", "Y")]
      ⟨"multipart/mixed", [("boundary", "X")], by decide, by decide, by decide⟩
      (by decide)
      (by
        intro q hq
        rw [List.mem_singleton] at hq
        subst hq
        exact ⟨0, [⟨[("Content-Type", ["text/plain"])], bytesOf "a"⟩], by decide⟩)
      (by decide) (by decide)
      (Raises.nested 0 [("Content-Type", ["multipart/mixed; boundary=Y"])] innerBody "Y" []
        ⟨[("Content-Type", ["multipart/mixed"])], ⟨bytesOf "zz", Error.EOF⟩⟩ []
        Error.ErrMissingBoundary "multipart/mixed" []
        ⟨"multipart/mixed", [("boundary", "Y")], by decide, by decide, by decide⟩
        (by decide)
        (fun q hq => absurd hq (List.not_mem_nil q))
        (by decide) (by decide)
        (Raises.missingBoundary [("Content-Type", ["multipart/mixed"])]
          ⟨bytesOf "zz", Error.EOF⟩ "multipart/mixed" [] (by decide) (by decide)
          (by decide))))⟩


/-! ## The caller's header mapping -/

/-- A mapping without the key `k` is not changed by removing the entries of `k`. -/
theorem filter_absent (h : MIMEHeader) (k : String) (hk : h.lookup k = none) :
    h.filter (fun kv => !(kv.1 == k)) = h := by
  induction h with
  | nil => rfl
  | cons kv t ih =>
    obtain ⟨k1, v1⟩ := kv
    rw [List.lookup_cons] at hk
    cases hkk : (k == k1) with
    | true => simp [hkk] at hk
    | false =>
      simp only [hkk] at hk
      have hne : (k1 == k) = false := by
        have h1 : k ≠ k1 := by simpa using hkk
        simpa using (fun h2 : k1 = k => h1 h2.symm)
      simp only [List.filter_cons, hne, Bool.not_false, if_true, ih hk]

/-- On a mapping without the content-type key, `Set` adds the one entry and keeps the rest. -/
theorem Set_absent (h : MIMEHeader) (value : String) (hk : h.has CONTENT_TYPE = false) :
    h.Set CONTENT_TYPE value = (CONTENT_TYPE, [value]) :: h := by
  have hl : h.lookup CONTENT_TYPE = none := by
    cases hlk : h.lookup CONTENT_TYPE with
    | none => rfl
    | some v => simp [MIMEHeader.has, hlk] at hk
  simp only [MIMEHeader.Set, canonical_CONTENT_TYPE, filter_absent h CONTENT_TYPE hl]

/-- The header mapping a returning call leaves behind is the one it was given with the default
content type injected. -/
theorem parseMIMEParts_hs (E : Env) (fuel : Nat) (hs : MIMEHeader) (b : Reader) (r : Result)
    (hrun : parseMIMEParts E fuel hs b = some r) : r.hs = injectDefault E hs := by
  cases fuel with
  | zero => simp [parseMIMEParts] at hrun
  | succ n =>
    unfold parseMIMEParts at hrun
    cases hp : E.ParseMediaType ((injectDefault E hs).Get CONTENT_TYPE) with
    | error e =>
      simp only [hp, Option.some.injEq] at hrun
      rw [← hrun]
    | ok v =>
      obtain ⟨ct, params⟩ := v
      simp only [hp] at hrun
      by_cases hm : HasPrefix ct MULTIPART = true
      · simp only [hm, if_true] at hrun
        cases hb : params.lookup BOUNDARY with
        | none =>
          simp only [hb, Option.some.injEq] at hrun
          rw [← hrun]
        | some boundary =>
          simp only [hb] at hrun
          cases hn : nextParts E (parseMIMEParts E n) (E.NewReader b boundary).parts
              (E.NewReader b boundary).err [] with
          | none => simp [hn] at hrun
          | some x =>
            simp only [hn, Option.some.injEq] at hrun
            rw [← hrun]
      · have hm1 : HasPrefix ct MULTIPART = false := by simpa using hm
        simp only [hm1] at hrun
        cases hc : ioCopy (topReader E (injectDefault E hs) b) with
        | error e =>
          simp only [hc, Bool.false_eq_true, if_false, Option.some.injEq] at hrun
          rw [← hrun]
        | ok buf =>
          simp only [hc, Bool.false_eq_true, if_false, Option.some.injEq] at hrun
          rw [← hrun]

/-- C11: the only change `parseMIMEParts` makes to the caller's header mapping is default
injection. If the mapping has a Content-Type key on entry, the mapping after the call, success
or failure, is the mapping before; if it has none, the mapping after is the mapping before with
Content-Type set to the single value `DefaultContentType`, every other field unchanged. -/
theorem parseMIMEParts_header_frame (E : Env) (fuel : Nat) (hs : MIMEHeader) (b : Reader)
    (r : Result) (hrun : parseMIMEParts E fuel hs b = some r) :
    (hs.has CONTENT_TYPE = true → r.hs = hs) ∧
    (hs.has CONTENT_TYPE = false →
      r.hs = hs.Set CONTENT_TYPE E.DefaultContentType ∧
      r.hs = (CONTENT_TYPE, [E.DefaultContentType]) :: hs ∧
      r.hs.lookup CONTENT_TYPE = some [E.DefaultContentType] ∧
      ∀ k : String, k ≠ CONTENT_TYPE → r.hs.lookup k = hs.lookup k) := by
  have hr := parseMIMEParts_hs E fuel hs b r hrun
  constructor
  · intro hh
    rw [hr, injectDefault, if_pos hh]
  · intro hh
    have hset : r.hs = hs.Set CONTENT_TYPE E.DefaultContentType := by
      rw [hr, injectDefault, if_neg (by simp [hh])]
    refine ⟨hset, ?_, ?_, ?_⟩
    · rw [hset, Set_absent hs _ hh]
    · rw [hset, Set_absent hs _ hh]
      simp [List.lookup_cons]
    · intro k hk
      rw [hr]
      exact lookup_injectDefault_ne E hs k hk

/-- A failing call on a mapping with a Content-Type key leaves it as it was; a call on a
mapping with only another field adds the default content type in front of that field. -/
theorem parseMIMEParts_header_frame_witness :
    parseMIMEParts (stdEnv exampleDefault) 1 scenarioHeader truncatedBody =
      some ⟨scenarioHeader, [⟨[("Content-Type", ["text/plain"])], bytesOf "hello"⟩],
        some (Error.other "unexpected EOF")⟩ ∧
    parseMIMEParts (stdEnv exampleDefault) 1 [("Subject", ["hi"])]
        ⟨bytesOf "abc", Error.EOF⟩ =
      some ⟨[("Content-Type", [exampleDefault]), ("Subject", ["hi"])],
        [⟨[("Content-Type", [exampleDefault]), ("Subject", ["hi"])], bytesOf "abc"⟩],
        none⟩ ∧
    ((⟨scenarioHeader, [⟨[("Content-Type", ["text/plain"])], bytesOf "hello"⟩],
        some (Error.other "unexpected EOF")⟩ : Result).hs = scenarioHeader) ∧
    ((⟨[("Content-Type", [exampleDefault]), ("Subject", ["hi"])],
        [⟨[("Content-Type", [exampleDefault]), ("Subject", ["hi"])], bytesOf "abc"⟩],
        none⟩ : Result).hs =
      MIMEHeader.Set [("Subject", ["hi"])] CONTENT_TYPE exampleDefault ∧
     (⟨[("Content-Type", [exampleDefault]), ("Subject", ["hi"])],
        [⟨[("Content-Type", [exampleDefault]), ("Subject", ["hi"])], bytesOf "abc"⟩],
        none⟩ : Result).hs = (CONTENT_TYPE, [exampleDefault]) :: [("Subject", ["hi"])] ∧
     List.lookup CONTENT_TYPE
        (⟨[("Content-Type", [exampleDefault]), ("Subject", ["hi"])],
          [⟨[("Content-Type", [exampleDefault]), ("Subject", ["hi"])], bytesOf "abc"⟩],
          none⟩ : Result).hs = some [exampleDefault] ∧
     ∀ k : String, k ≠ CONTENT_TYPE →
        List.lookup k
          (⟨[("Content-Type", [exampleDefault]), ("Subject", ["hi"])],
            [⟨[("Content-Type", [exampleDefault]), ("Subject", ["hi"])], bytesOf "abc"⟩],
            none⟩ : Result).hs = List.lookup k [("Subject", ["hi"])]) :=
  ⟨by decide, by decide,
   (parseMIMEParts_header_frame (stdEnv exampleDefault) 1 scenarioHeader truncatedBody
      ⟨scenarioHeader, [⟨[("Content-Type", ["text/plain"])], bytesOf "hello"⟩],
        some (Error.other "unexpected EOF")⟩ (by decide)).1 (by decide),
   (parseMIMEParts_header_frame (stdEnv exampleDefault) 1 [("Subject", ["hi"])]
      ⟨bytesOf "abc", Error.EOF⟩
      ⟨[("Content-Type", [exampleDefault]), ("Subject", ["hi"])],
        [⟨[("Content-Type", [exampleDefault]), ("Subject", ["hi"])], bytesOf "abc"⟩],
        none⟩ (by decide)).2 (by decide)⟩


/-! ## Invariants of the returned parts -/

/-- A property of parts that holds of the accumulator and of what each pass of the loop body
appends holds of everything the loop returns. -/
theorem nextParts_forall (E : Env) (self : MIMEHeader → Reader → Option Result)
    (P : part → Prop) (parts : List Part) (fin : Error) :
    ∀ (ps res : List part) (err : Option Error),
      nextParts E self parts fin ps = some (res, err) →
      (∀ pt ∈ ps, P pt) →
      (∀ p ∈ parts, ∀ out, stepPart E self p = some (Except.ok out) → ∀ pt ∈ out, P pt) →
      ∀ pt ∈ res, P pt := by
  induction parts with
  | nil =>
    intro ps res err h hps _
    rw [nextParts_nil] at h
    simp only [Option.some.injEq, Prod.mk.injEq] at h
    rw [← h.1]
    exact hps
  | cons p rest ih =>
    intro ps res err h hps hstep
    rw [nextParts_cons] at h
    cases hst : stepPart E self p with
    | none => simp [hst] at h
    | some y =>
      cases y with
      | error e =>
        simp only [hst, Option.some.injEq, Prod.mk.injEq] at h
        rw [← h.1]
        exact hps
      | ok out =>
        simp only [hst] at h
        refine ih _ _ _ h ?_ (fun q hq => hstep q (List.mem_cons_of_mem p hq))
        intro pt hpt
        rcases List.mem_append.mp hpt with h1 | h1
        · exact hps pt h1
        · exact hstep p (List.mem_cons_self p rest) out hst pt h1

/-- The parts of a call on a multipart entity are those of the loop. -/
theorem parseMIMEParts_cases (E : Env) (n : Nat) (hs : MIMEHeader) (b : Reader) (r : Result)
    (hrun : parseMIMEParts E (n + 1) hs b = some r) :
    r.ps = [] ∨
    (∃ ct params buf,
      E.ParseMediaType ((injectDefault E hs).Get CONTENT_TYPE) = Except.ok (ct, params) ∧
      HasPrefix ct MULTIPART = false ∧ r.ps = [⟨injectDefault E hs, buf⟩]) ∨
    (∃ boundary, IsMultipart E hs boundary ∧
      nextParts E (parseMIMEParts E n) (E.NewReader b boundary).parts
        (E.NewReader b boundary).err [] = some (r.ps, r.err)) := by
  cases hp : E.ParseMediaType ((injectDefault E hs).Get CONTENT_TYPE) with
  | error e =>
    simp only [parseMIMEParts, hp, Option.some.injEq] at hrun
    exact Or.inl (by rw [← hrun])
  | ok v =>
    obtain ⟨ct, params⟩ := v
    by_cases hm : HasPrefix ct MULTIPART = true
    · cases hb : params.lookup BOUNDARY with
      | none =>
        simp only [parseMIMEParts, hp, hm, hb, if_true, Option.some.injEq] at hrun
        exact Or.inl (by rw [← hrun])
      | some boundary =>
        have hmp : IsMultipart E hs boundary := ⟨ct, params, hp, hm, hb⟩
        rw [parseMIMEParts_multipart E n hs b boundary hmp] at hrun
        cases hn : nextParts E (parseMIMEParts E n) (E.NewReader b boundary).parts
            (E.NewReader b boundary).err [] with
        | none => simp [hn] at hrun
        | some x =>
          obtain ⟨ps, err⟩ := x
          simp only [hn, Option.some.injEq] at hrun
          refine Or.inr (Or.inr ⟨boundary, hmp, ?_⟩)
          rw [← hrun]
          exact hn
    · have hm1 : HasPrefix ct MULTIPART = false := by simpa using hm
      rw [parseMIMEParts_single E n hs b ct params hp hm1] at hrun
      cases hc : ioCopy (topReader E (injectDefault E hs) b) with
      | error e =>
        simp only [hc, Option.some.injEq] at hrun
        exact Or.inl (by rw [← hrun])
      | ok buf =>
        simp only [hc, Option.some.injEq] at hrun
        exact Or.inr (Or.inl ⟨ct, params, buf, rfl, hm1, by rw [← hrun]⟩)

/-- Every part a call returns, with or without an error, has a content type that parses to a
media type without the multipart prefix. -/
theorem parts_not_multipart (E : Env) (fuel : Nat) :
    ∀ (hs : MIMEHeader) (b : Reader) (r : Result), parseMIMEParts E fuel hs b = some r →
      ∀ pt ∈ r.ps, ∃ ct params,
        E.ParseMediaType (pt.header.Get CONTENT_TYPE) = Except.ok (ct, params) ∧
        HasPrefix ct MULTIPART = false := by
  induction fuel with
  | zero => intro hs b r h; simp [parseMIMEParts] at h
  | succ n ih =>
    intro hs b r hrun pt hpt
    rcases parseMIMEParts_cases E n hs b r hrun with h0 | ⟨ct, params, buf, h1, h2, h3⟩ |
      ⟨boundary, _, hn⟩
    · rw [h0] at hpt
      exact absurd hpt (List.not_mem_nil pt)
    · rw [h3, List.mem_singleton] at hpt
      subst hpt
      exact ⟨ct, params, h1, h2⟩
    · refine nextParts_forall E _
        (fun pt => ∃ ct params,
          E.ParseMediaType (pt.header.Get CONTENT_TYPE) = Except.ok (ct, params) ∧
          HasPrefix ct MULTIPART = false)
        _ _ _ _ _ hn (fun q hq => absurd hq (List.not_mem_nil q)) ?_ pt hpt
      intro p _ out hst q hq
      rcases stepPart_ok E _ p out hst with ⟨⟨subct, sp, h1, h2⟩, ho⟩ | ⟨_, r1, hr1, _, ho⟩
      · rw [ho, List.mem_singleton] at hq
        subst hq
        exact ⟨subct, sp, h1, h2⟩
      · rw [ho] at hq
        exact ih _ _ r1 hr1 q hq

/-- C12: for every input on which `parseMIMEParts` succeeds, no part of the returned list is a
multipart container: the Content-Type of each returned part's header parses to a media type
that does not have the multipart prefix. -/
theorem parseMIMEParts_no_container (E : Env) (fuel : Nat) (hs : MIMEHeader) (b : Reader)
    (r : Result) (hrun : parseMIMEParts E fuel hs b = some r) (hok : r.err = none) :
    ∀ pt ∈ r.ps, ∃ ct params,
      E.ParseMediaType (pt.header.Get CONTENT_TYPE) = Except.ok (ct, params) ∧
      HasPrefix ct MULTIPART = false := by
  have _ := hok
  exact parts_not_multipart E fuel hs b r hrun

/-- The part `b` of the two-level document `nestedBody`, whose sub-entity had no content type,
carries the default content type, which is not multipart. -/
theorem parseMIMEParts_no_container_witness :
    parseMIMEParts (stdEnv exampleDefault) 2 scenarioHeader nestedBody =
      some ⟨scenarioHeader,
        [⟨[("Content-Type", ["text/plain"])], bytesOf "a"⟩,
         ⟨[("Content-Type", [exampleDefault])], bytesOf "b"⟩,
         ⟨[("Content-Type", ["text/html"])], bytesOf "c"⟩,
         ⟨[("Content-Type", ["text/plain"])], bytesOf "d"⟩], none⟩ ∧
    ∃ ct params,
      (stdEnv exampleDefault).ParseMediaType
          ((⟨[("Content-Type", [exampleDefault])], bytesOf "b"⟩ : part).header.Get
            CONTENT_TYPE) = Except.ok (ct, params) ∧
      HasPrefix ct MULTIPART = false :=
  ⟨by decide,
   parseMIMEParts_no_container (stdEnv exampleDefault) 2 scenarioHeader nestedBody
    ⟨scenarioHeader,
      [⟨[("Content-Type", ["text/plain"])], bytesOf "a"⟩,
       ⟨[("Content-Type", [exampleDefault])], bytesOf "b"⟩,
       ⟨[("Content-Type", ["text/html"])], bytesOf "c"⟩,
       ⟨[("Content-Type", ["text/plain"])], bytesOf "d"⟩], none⟩
    (by decide) rfl ⟨[("Content-Type", [exampleDefault])], bytesOf "b"⟩ (by decide)⟩

theorem IsMultipart_injectDefault (E : Env) (h : MIMEHeader) (boundary : String)
    (hm : IsMultipart E (injectDefault E h) boundary) : IsMultipart E h boundary := by
  unfold IsMultipart at hm ⊢
  rw [injectDefault_idem] at hm
  exact hm

/-- An entity of the input whose top-level header had the default injected is, up to that
injection, an entity of the input as it stood. -/
theorem EntityHeader_injectDefault (E : Env) (h : MIMEHeader) (b : Reader) (h0 : MIMEHeader)
    (he : EntityHeader E (injectDefault E h) b h0) :
    ∃ h1, EntityHeader E h b h1 ∧ injectDefault E h1 = injectDefault E h0 := by
  cases he with
  | top => exact ⟨h, EntityHeader.top h b, (injectDefault_idem E h).symm⟩
  | sub _ _ boundary p _ hm hp hsub =>
    exact ⟨h0, EntityHeader.sub h b boundary p h0 (IsMultipart_injectDefault E h boundary hm)
      hp hsub, rfl⟩

/-- Every part a call returns carries the header of an entity of the input, with the default
content type injected. -/
theorem parts_entity_header (E : Env) (fuel : Nat) :
    ∀ (hs : MIMEHeader) (b : Reader) (r : Result), parseMIMEParts E fuel hs b = some r →
      ∀ pt ∈ r.ps, ∃ h0, EntityHeader E hs b h0 ∧ pt.header = injectDefault E h0 := by
  induction fuel with
  | zero => intro hs b r h; simp [parseMIMEParts] at h
  | succ n ih =>
    intro hs b r hrun pt hpt
    rcases parseMIMEParts_cases E n hs b r hrun with h0 | ⟨ct, params, buf, _, _, h3⟩ |
      ⟨boundary, hm, hn⟩
    · rw [h0] at hpt
      exact absurd hpt (List.not_mem_nil pt)
    · rw [h3, List.mem_singleton] at hpt
      subst hpt
      exact ⟨hs, EntityHeader.top hs b, rfl⟩
    · refine nextParts_forall E _
        (fun pt => ∃ h0, EntityHeader E hs b h0 ∧ pt.header = injectDefault E h0)
        _ _ _ _ _ hn (fun q hq => absurd hq (List.not_mem_nil q)) ?_ pt hpt
      intro p hp out hst q hq
      rcases stepPart_ok E _ p out hst with ⟨_, ho⟩ | ⟨_, r1, hr1, _, ho⟩
      · rw [ho, List.mem_singleton] at hq
        subst hq
        exact ⟨p.Header,
          EntityHeader.sub hs b boundary p p.Header hm hp (EntityHeader.top p.Header p.body),
          rfl⟩
      · rw [ho] at hq
        obtain ⟨h0, he, hh⟩ := ih _ _ r1 hr1 q hq
        obtain ⟨h1, he1, hh1⟩ := EntityHeader_injectDefault E p.Header p.body h0 he
        exact ⟨h1, EntityHeader.sub hs b boundary p h1 hm hp he1, by rw [hh, hh1]⟩

/-- C13: for every input on which `parseMIMEParts` succeeds, the header of every part of the
returned list contains a Content-Type entry. The header is that of an entity of the input,
top-level or sub-entity at any depth, and when that entity omitted the Content-Type the entry is
`DefaultContentType`. -/
theorem parseMIMEParts_content_type_present (E : Env) (fuel : Nat) (hs : MIMEHeader)
    (b : Reader) (r : Result) (hrun : parseMIMEParts E fuel hs b = some r)
    (hok : r.err = none) :
    ∀ pt ∈ r.ps, pt.header.has CONTENT_TYPE = true ∧
      ∃ h0, EntityHeader E hs b h0 ∧ pt.header = injectDefault E h0 ∧
        (h0.has CONTENT_TYPE = false →
          pt.header.lookup CONTENT_TYPE = some [E.DefaultContentType]) := by
  have _ := hok
  intro pt hpt
  obtain ⟨h0, he, hh⟩ := parts_entity_header E fuel hs b r hrun pt hpt
  refine ⟨by rw [hh]; exact has_injectDefault E h0, h0, he, hh, ?_⟩
  intro hno
  rw [hh, injectDefault, if_neg (by simp [hno]), Set_absent h0 _ hno]
  simp [List.lookup_cons]

/-- In the two-level document `nestedBody` the first sub-entity of the inner multipart has no
Content-Type; the part `b` emitted for it has the default one. -/
theorem parseMIMEParts_content_type_present_witness :
    ((stdEnv exampleDefault).NewReader
        ⟨bytesOf "--Y\r\n\r\nb\r\n--Y--\r\n", Error.EOF⟩ "Y").parts =
      [⟨[], ⟨bytesOf "b", Error.EOF⟩⟩] ∧
    (⟨[("Content-Type", [exampleDefault])], bytesOf "b"⟩ : part) ∈
      [(⟨[("Content-Type", ["text/plain"])], bytesOf "a"⟩ : part),
       ⟨[("Content-Type", [exampleDefault])], bytesOf "b"⟩,
       ⟨[("Content-Type", ["text/html"])], bytesOf "c"⟩,
       ⟨[("Content-Type", ["text/plain"])], bytesOf "d"⟩] ∧
    (⟨[("Content-Type", [exampleDefault])], bytesOf "b"⟩ : part).header.has CONTENT_TYPE =
      true ∧
    ∃ h0, EntityHeader (stdEnv exampleDefault) scenarioHeader nestedBody h0 ∧
      (⟨[("Content-Type", [exampleDefault])], bytesOf "b"⟩ : part).header =
        injectDefault (stdEnv exampleDefault) h0 ∧
      (h0.has CONTENT_TYPE = false →
        List.lookup CONTENT_TYPE
          (⟨[("Content-Type", [exampleDefault])], bytesOf "b"⟩ : part).header =
          some [(stdEnv exampleDefault).DefaultContentType]) :=
  ⟨by decide, by decide,
   parseMIMEParts_content_type_present (stdEnv exampleDefault) 2 scenarioHeader nestedBody
    ⟨scenarioHeader,
      [⟨[("Content-Type", ["text/plain"])], bytesOf "a"⟩,
       ⟨[("Content-Type", [exampleDefault])], bytesOf "b"⟩,
       ⟨[("Content-Type", ["text/html"])], bytesOf "c"⟩,
       ⟨[("Content-Type", ["text/plain"])], bytesOf "d"⟩], none⟩
    (by decide) rfl ⟨[("Content-Type", [exampleDefault])], bytesOf "b"⟩ (by decide)⟩

/-! ## Exact match of the transfer encoding -/

/-- C14: the transfer-encoding decision is a case-sensitive exact match. For a non-multipart
entity whose Content-Transfer-Encoding value is neither exactly `quoted-printable` nor exactly
`base64` (for example `BASE64`, `Quoted-Printable`, `7bit`) and whose body reads without error,
`parseMIMEParts` returns one part whose body is the raw input bytes, unchanged. -/
theorem parseMIMEParts_other_encoding (E : Env) (fuel : Nat) (hs : MIMEHeader) (b : Reader)
    (ct : String) (params : List (String × String))
    (hct : E.ParseMediaType ((injectDefault E hs).Get CONTENT_TYPE) = Except.ok (ct, params))
    (hnm : HasPrefix ct MULTIPART = false)
    (hqp : hs.Get CONTENT_TRANSFER_ENCODING ≠ "quoted-printable")
    (hb64 : hs.Get CONTENT_TRANSFER_ENCODING ≠ "base64")
    (hb : b.err = Error.EOF) :
    parseMIMEParts E (fuel + 1) hs b =
      some ⟨injectDefault E hs, [⟨injectDefault E hs, b.data⟩], none⟩ := by
  have htop : topReader E (injectDefault E hs) b = b := by
    unfold topReader
    have h1 : ¬ hs.Get CONTENT_TRANSFER_ENCODING = QUOTED_PRINTABLE := hqp
    have h2 : ¬ hs.Get CONTENT_TRANSFER_ENCODING = BASE_64 := hb64
    rw [Get_injectDefault_CTE, if_neg h1, if_neg h2]
  rw [parseMIMEParts_single E fuel hs b ct params hct hnm, htop, ioCopy_eof b hb]

/-- The values `BASE64`, `Quoted-Printable` and `7bit` leave the bodies `d29ybGQ=`, `=41` and
`abc` as they are. -/
theorem parseMIMEParts_other_encoding_witness :
    parseMIMEParts (stdEnv exampleDefault) 1
        [("Content-Type", ["text/plain"]), ("Content-Transfer-Encoding", ["BASE64"])]
        ⟨bytesOf "d29ybGQ=", Error.EOF⟩ =
      some ⟨[("Content-Type", ["text/plain"]), ("Content-Transfer-Encoding", ["BASE64"])],
        [⟨[("Content-Type", ["text/plain"]), ("Content-Transfer-Encoding", ["BASE64"])],
          bytesOf "d29ybGQ="⟩], none⟩ ∧
    parseMIMEParts (stdEnv exampleDefault) 1
        [("Content-Type", ["text/plain"]), ("Content-Transfer-Encoding", ["Quoted-Printable"])]
        ⟨bytesOf "=41", Error.EOF⟩ =
      some ⟨[("Content-Type", ["text/plain"]),
          ("Content-Transfer-Encoding", ["Quoted-Printable"])],
        [⟨[("Content-Type", ["text/plain"]),
            ("Content-Transfer-Encoding", ["Quoted-Printable"])],
          bytesOf "=41"⟩], none⟩ ∧
    parseMIMEParts (stdEnv exampleDefault) 1
        [("Content-Type", ["text/plain"]), ("Content-Transfer-Encoding", ["7bit"])]
        ⟨bytesOf "abc", Error.EOF⟩ =
      some ⟨[("Content-Type", ["text/plain"]), ("Content-Transfer-Encoding", ["7bit"])],
        [⟨[("Content-Type", ["text/plain"]), ("Content-Transfer-Encoding", ["7bit"])],
          bytesOf "abc"⟩], none⟩ :=
  ⟨parseMIMEParts_other_encoding (stdEnv exampleDefault) 0
      [("Content-Type", ["text/plain"]), ("Content-Transfer-Encoding", ["BASE64"])]
      ⟨bytesOf "d29ybGQ=", Error.EOF⟩ "text/plain" [] (by decide) (by decide) (by decide)
      (by decide) rfl,
   parseMIMEParts_other_encoding (stdEnv exampleDefault) 0
      [("Content-Type", ["text/plain"]), ("Content-Transfer-Encoding", ["Quoted-Printable"])]
      ⟨bytesOf "=41", Error.EOF⟩ "text/plain" [] (by decide) (by decide) (by decide)
      (by decide) rfl,
   parseMIMEParts_other_encoding (stdEnv exampleDefault) 0
      [("Content-Type", ["text/plain"]), ("Content-Transfer-Encoding", ["7bit"])]
      ⟨bytesOf "abc", Error.EOF⟩ "text/plain" [] (by decide) (by decide) (by decide)
      (by decide) rfl⟩

/-! ## Termination and the depth of the recursion -/

theorem le_maxOf (l : List Nat) : ∀ x ∈ l, x ≤ maxOf l := by
  induction l with
  | nil => intro x hx; exact absurd hx (List.not_mem_nil x)
  | cons a t ih =>
    intro x hx
    simp only [maxOf, List.foldr_cons]
    rcases List.mem_cons.mp hx with rfl | h
    · exact le_max_left _ _
    · exact le_trans (ih x h) (le_max_right _ _)

theorem maxOf_le (l : List Nat) (m : Nat) (h : ∀ x ∈ l, x ≤ m) : maxOf l ≤ m := by
  induction l with
  | nil => simp [maxOf]
  | cons a t ih =>
    simp only [maxOf, List.foldr_cons]
    exact max_le (h a (List.mem_cons_self a t))
      (ih (fun x hx => h x (List.mem_cons_of_mem a hx)))

/-- The loop returns as soon as every pass of its body does. -/
theorem nextParts_returns (E : Env) (self : MIMEHeader → Reader → Option Result)
    (parts : List Part) (fin : Error)
    (h : ∀ p ∈ parts, ∃ x, stepPart E self p = some x) :
    ∀ ps : List part, ∃ y, nextParts E self parts fin ps = some y := by
  induction parts with
  | nil => intro ps; exact ⟨_, nextParts_nil E self fin ps⟩
  | cons p rest ih =>
    intro ps
    obtain ⟨x, hx⟩ := h p (List.mem_cons_self p rest)
    rw [nextParts_cons, hx]
    cases x with
    | error e => exact ⟨_, rfl⟩
    | ok out => exact ih (fun q hq => h q (List.mem_cons_of_mem p hq)) _

/-- A pass of the loop body returns when the recursive call on a multipart sub-entity does. -/
theorem stepPart_returns (E : Env) (self : MIMEHeader → Reader → Option Result) (p : Part)
    (h : ∀ subct subparams,
      E.ParseMediaType ((injectDefault E p.Header).Get CONTENT_TYPE) =
        Except.ok (subct, subparams) → HasPrefix subct MULTIPART = true →
      ∃ r, self (injectDefault E p.Header) p.body = some r) :
    ∃ x, stepPart E self p = some x := by
  unfold stepPart
  cases hp : E.ParseMediaType ((injectDefault E p.Header).Get CONTENT_TYPE) with
  | error e => exact ⟨_, rfl⟩
  | ok v =>
    obtain ⟨subct, sp⟩ := v
    by_cases hm : HasPrefix subct MULTIPART = true
    · obtain ⟨r, hr⟩ := h subct sp hp hm
      simp only [hm, if_true, hr]
      cases r.err with
      | none => exact ⟨_, rfl⟩
      | some e => exact ⟨_, rfl⟩
    · simp only [hm, if_false]
      cases ioCopy (subReader E (injectDefault E p.Header) p.body) with
      | error e => exact ⟨_, rfl⟩
      | ok buf => exact ⟨_, rfl⟩

/-- The nesting depth of a multipart entity with a boundary. -/
theorem nestingDepth_multipart (E : Env) (n : Nat) (hs : MIMEHeader) (b : Reader)
    (boundary : String) (hm : IsMultipart E hs boundary) :
    nestingDepth E (n + 1) hs b =
      1 + maxOf ((E.NewReader b boundary).parts.map (fun p =>
        match E.ParseMediaType ((injectDefault E p.Header).Get CONTENT_TYPE) with
        | Except.error _ => 0
        | Except.ok (subct, _) =>
          if HasPrefix subct MULTIPART then
            nestingDepth E n (injectDefault E p.Header) p.body
          else 0)) := by
  obtain ⟨ct, params, h1, h2, h3⟩ := hm
  simp only [nestingDepth, h1, h2, h3, if_true]

/-- The nesting depth of an entity that is not a multipart with a boundary. -/
theorem nestingDepth_single (E : Env) (n : Nat) (hs : MIMEHeader) (b : Reader)
    (hm : ∀ boundary, ¬ IsMultipart E hs boundary) : nestingDepth E (n + 1) hs b = 1 := by
  cases hp : E.ParseMediaType ((injectDefault E hs).Get CONTENT_TYPE) with
  | error e => simp only [nestingDepth, hp]
  | ok v =>
    obtain ⟨ct, params⟩ := v
    by_cases hmp : HasPrefix ct MULTIPART = true
    · cases hb : params.lookup BOUNDARY with
      | none => simp only [nestingDepth, hp, hmp, hb, if_true]
      | some boundary => exact absurd ⟨ct, params, hp, hmp, hb⟩ (hm boundary)
    · have hm1 : HasPrefix ct MULTIPART = false := by simpa using hmp
      simp [nestingDepth, hp, hm1]

/-- A call on an entity that is not a multipart with a boundary returns at the first level. -/
theorem parseMIMEParts_single_returns (E : Env) (hs : MIMEHeader) (b : Reader)
    (hm : ∀ boundary, ¬ IsMultipart E hs boundary) :
    ∃ r, parseMIMEParts E 1 hs b = some r := by
  cases hp : E.ParseMediaType ((injectDefault E hs).Get CONTENT_TYPE) with
  | error e => exact ⟨⟨injectDefault E hs, [], some e⟩, by simp only [parseMIMEParts, hp]⟩
  | ok v =>
    obtain ⟨ct, params⟩ := v
    by_cases hmp : HasPrefix ct MULTIPART = true
    · cases hb : params.lookup BOUNDARY with
      | none =>
        exact ⟨⟨injectDefault E hs, [], some Error.ErrMissingBoundary⟩,
          by simp only [parseMIMEParts, hp, hmp, hb, if_true]⟩
      | some boundary => exact absurd ⟨ct, params, hp, hmp, hb⟩ (hm boundary)
    · have hm1 : HasPrefix ct MULTIPART = false := by simpa using hmp
      rw [parseMIMEParts_single E 0 hs b ct params hp hm1]
      cases ioCopy (topReader E (injectDefault E hs) b) with
      | error e => exact ⟨_, rfl⟩
      | ok buf => exact ⟨_, rfl⟩

/-- Either the entity is a multipart with a boundary, or it is not one for any boundary. -/
theorem IsMultipart_or (E : Env) (hs : MIMEHeader) :
    (∃ boundary, IsMultipart E hs boundary) ∨ ∀ boundary, ¬ IsMultipart E hs boundary := by
  by_cases h : ∃ boundary, IsMultipart E hs boundary
  · exact Or.inl h
  · exact Or.inr (fun boundary hb => h ⟨boundary, hb⟩)

/-- The nesting depth explored to `n` levels is at most `n`. -/
theorem nestingDepth_le (E : Env) (n : Nat) :
    ∀ (hs : MIMEHeader) (b : Reader), nestingDepth E n hs b ≤ n := by
  induction n with
  | zero => intro hs b; simp [nestingDepth]
  | succ n ih =>
    intro hs b
    rcases IsMultipart_or E hs with ⟨boundary, hm⟩ | hm
    · rw [nestingDepth_multipart E n hs b boundary hm, Nat.add_comm]
      refine Nat.succ_le_succ (maxOf_le _ _ ?_)
      intro x hx
      obtain ⟨p, _, rfl⟩ := List.mem_map.mp hx
      cases hp : E.ParseMediaType ((injectDefault E p.Header).Get CONTENT_TYPE) with
      | error e => simp
      | ok v =>
        obtain ⟨subct, sp⟩ := v
        by_cases hmp : HasPrefix subct MULTIPART = true
        · simp only [hmp, if_true]
          exact ih _ _
        · simp [hmp]
    · rw [nestingDepth_single E n hs b hm]
      omega

/-- With sub-entities shorter than their parent, the call returns when as many levels may be
entered as the nesting depth of the entity. -/
theorem parseMIMEParts_returns (E : Env) (hsh : Shrinking E) (n : Nat) :
    ∀ (hs : MIMEHeader) (b : Reader), b.data.length < n →
      ∃ r, parseMIMEParts E (nestingDepth E n hs b) hs b = some r := by
  induction n with
  | zero => intro hs b h; omega
  | succ n ih =>
    intro hs b hlen
    rcases IsMultipart_or E hs with ⟨boundary, hm⟩ | hm
    · rw [nestingDepth_multipart E n hs b boundary hm, Nat.add_comm,
        parseMIMEParts_multipart E _ hs b boundary hm]
      have hstep : ∀ p ∈ (E.NewReader b boundary).parts, ∃ x,
          stepPart E (parseMIMEParts E (maxOf ((E.NewReader b boundary).parts.map (fun p =>
            match E.ParseMediaType ((injectDefault E p.Header).Get CONTENT_TYPE) with
            | Except.error _ => 0
            | Except.ok (subct, _) =>
              if HasPrefix subct MULTIPART then
                nestingDepth E n (injectDefault E p.Header) p.body
              else 0)))) p = some x := by
        intro p hp
        refine stepPart_returns E _ p ?_
        intro subct sp hct hmp
        obtain ⟨r, hr⟩ := ih (injectDefault E p.Header) p.body
          (by have := hsh b boundary p hp; omega)
        refine ⟨r, parseMIMEParts_mono E _ _ ?_ _ _ r hr⟩
        refine le_trans (le_of_eq ?_) (le_maxOf _ _ (List.mem_map.mpr ⟨p, hp, rfl⟩))
        simp only [hct, hmp, if_true]
      obtain ⟨y, hy⟩ := nextParts_returns E _ _ (E.NewReader b boundary).err hstep []
      rw [hy]
      obtain ⟨ps, err⟩ := y
      exact ⟨_, rfl⟩
    · rw [nestingDepth_single E n hs b hm]
      exact parseMIMEParts_single_returns E hs b hm

theorem forall₂_left {α β : Type} (R : α → β → Prop) (l1 : List α) (l2 : List β)
    (h : List.Forall₂ R l1 l2) : ∀ a ∈ l1, ∃ b, R a b := by
  induction h with
  | nil => intro a ha; exact absurd ha (List.not_mem_nil a)
  | cons hab _ ih =>
    intro a ha
    rcases List.mem_cons.mp ha with rfl | ha1
    · exact ⟨_, hab⟩
    · exact ih a ha1

/-- When the loop ends without error, every sub-entity was processed without error. -/
theorem nextParts_ok_mem (E : Env) (self : MIMEHeader → Reader → Option Result)
    (parts : List Part) (fin : Error) (ps res : List part)
    (h : nextParts E self parts fin ps = some (res, none)) :
    ∀ p ∈ parts, ∃ out, stepPart E self p = some (Except.ok out) := by
  obtain ⟨outs, _, h2⟩ := nextParts_ok E self parts fin ps res h
  exact forall₂_left _ parts outs h2

/-- A call that succeeds has entered every level of the entity: the nesting depth is at most
the number of levels it was allowed. -/
theorem nestingDepth_le_of_success (E : Env) (f : Nat) :
    ∀ (hs : MIMEHeader) (b : Reader) (r : Result), parseMIMEParts E f hs b = some r →
      r.err = none → ∀ n, nestingDepth E n hs b ≤ f := by
  induction f with
  | zero => intro hs b r h; simp [parseMIMEParts] at h
  | succ f ih =>
    intro hs b r hrun hok n
    cases n with
    | zero => simp [nestingDepth]
    | succ n =>
      rcases IsMultipart_or E hs with ⟨boundary, hm⟩ | hm
      · rw [nestingDepth_multipart E n hs b boundary hm, Nat.add_comm]
        refine Nat.succ_le_succ (maxOf_le _ _ ?_)
        rw [parseMIMEParts_multipart E f hs b boundary hm] at hrun
        cases hn : nextParts E (parseMIMEParts E f) (E.NewReader b boundary).parts
            (E.NewReader b boundary).err [] with
        | none => simp [hn] at hrun
        | some y =>
          obtain ⟨ps, err⟩ := y
          simp only [hn, Option.some.injEq] at hrun
          subst hrun
          simp only at hok
          subst hok
          intro x hx
          obtain ⟨p, hp, rfl⟩ := List.mem_map.mp hx
          obtain ⟨out, hout⟩ := nextParts_ok_mem E _ _ _ _ _ hn p hp
          rcases stepPart_ok E _ p out hout with ⟨⟨subct, sp, h1, h2⟩, _⟩ |
            ⟨⟨subct, sp, h1, h2⟩, r1, hr1, he1, _⟩
          · simp [h1, h2]
          · simp only [h1, h2, if_true]
            exact ih _ _ r1 hr1 he1 n
      · rw [nestingDepth_single E n hs b hm]
        omega

/-- With sub-entities shorter than their parent, the nesting depth does not depend on the
number of levels explored, once it exceeds the length of the body. -/
theorem nestingDepth_stable (E : Env) (hsh : Shrinking E) (n : Nat) :
    ∀ (m : Nat) (hs : MIMEHeader) (b : Reader), b.data.length < n → b.data.length < m →
      nestingDepth E n hs b = nestingDepth E m hs b := by
  induction n with
  | zero => intro m hs b h; omega
  | succ n ih =>
    intro m hs b hn hm
    cases m with
    | zero => omega
    | succ m =>
      rcases IsMultipart_or E hs with ⟨boundary, hmp⟩ | hmp
      · rw [nestingDepth_multipart E n hs b boundary hmp,
          nestingDepth_multipart E m hs b boundary hmp]
        congr 2
        refine List.map_congr_left ?_
        intro p hp
        have hlt := hsh b boundary p hp
        cases hct : E.ParseMediaType ((injectDefault E p.Header).Get CONTENT_TYPE) with
        | error e => rfl
        | ok v =>
          obtain ⟨subct, sp⟩ := v
          by_cases hpre : HasPrefix subct MULTIPART = true
          · simp only [hpre, if_true]
            exact ih m _ _ (by omega) (by omega)
          · simp [hpre]
      · rw [nestingDepth_single E n hs b hmp, nestingDepth_single E m hs b hmp]

/-! ### The model of the multipart reader yields shorter bodies -/

theorem flatten_linesOf (data : List Nat) :
    ∀ acc : List Nat, (linesOf data acc).flatten = acc.reverse ++ data := by
  induction data with
  | nil =>
    intro acc
    cases acc with
    | nil => simp [linesOf]
    | cons a t => simp [linesOf]
  | cons c cs ih =>
    intro acc
    by_cases hc : c = 10
    · simp [linesOf, hc, ih]
    · simp [linesOf, hc, ih]

theorem length_qpBytes (l : List Nat) :
    ∀ skip : Nat, (qpBytes skip l).1.length ≤ l.length := by
  induction l with
  | nil => intro skip; simp [qpBytes]
  | cons b rest ih =>
    intro skip
    cases skip with
    | succ s =>
      simp only [qpBytes]
      exact Nat.le_succ_of_le (ih s)
    | zero =>
      simp only [qpBytes]
      split
      · split
        · simp only [List.length_cons]; exact Nat.succ_le_succ (ih 2)
        · simp only [List.length_cons]; exact Nat.succ_le_succ (ih 0)
        · simp
      · split
        · simp only [List.length_cons]; exact Nat.succ_le_succ (ih 0)
        · simp

theorem length_dropWhile_le {α : Type} (p : α → Bool) (l : List α) :
    (l.dropWhile p).length ≤ l.length := by
  induction l with
  | nil => simp
  | cons a t ih =>
    simp only [List.dropWhile]
    split
    · exact Nat.le_succ_of_le ih
    · exact Nat.le_refl _

theorem length_qpPrepare (rerr : Error) (whole : List Nat) :
    (qpPrepare rerr whole).1.length ≤ whole.length := by
  have hd := length_dropWhile_le isQPDiscard whole.reverse
  rw [List.length_reverse] at hd
  unfold qpPrepare
  split
  · rename_i body hb
    rw [hb] at hd
    simp only [List.length_reverse]
    simp only [List.length_cons] at hd
    omega
  · rename_i line hl
    cases hw : whole.reverse with
    | nil =>
      simp only [hw, List.dropWhile, List.length_append, List.length_reverse, List.length_nil]
      simp
    | cons a t =>
      have hlen : whole.length = t.length + 1 := by
        have := congrArg List.length hw
        simpa using this
      by_cases ha : a = 10
      · subst ha
        cases t with
        | nil =>
          simp [List.dropWhile, isQPDiscard, hlen]
        | cons a2 t2 =>
          by_cases ha2 : a2 = 13
          · subst ha2
            have h2 := length_dropWhile_le isQPDiscard t2
            simp [List.dropWhile, isQPDiscard, hlen]
            omega
          · have h2 := length_dropWhile_le isQPDiscard (a2 :: t2)
            have : (match (10 :: a2 :: t2) with
                | 10 :: 13 :: _ => [13, 10]
                | 10 :: _ => [10]
                | _ => ([] : List Nat)) = [10] := by
              split
              · rename_i heq; simp at heq; exact absurd heq.1 ha2
              · rfl
              · rename_i h1 h3; exact absurd rfl (h3 _)
            simp only [this]
            have h3 : List.dropWhile isQPDiscard (10 :: a2 :: t2) =
                List.dropWhile isQPDiscard (a2 :: t2) := by
              simp [List.dropWhile, isQPDiscard]
            rw [h3]
            simp only [List.length_append, List.length_reverse, List.length_cons,
              List.length_nil, hlen]
            simp only [List.length_cons] at h2
            omega
      · have h2 := length_dropWhile_le isQPDiscard (a :: t)
        have : (match (a :: t) with
            | 10 :: 13 :: _ => [13, 10]
            | 10 :: _ => [10]
            | _ => ([] : List Nat)) = [] := by
          split
          · rename_i heq; simp at heq; exact absurd heq.1 ha
          · rename_i heq; simp at heq; exact absurd heq.1 ha
          · rfl
        simp only [this, List.append_nil, List.length_reverse, hlen]
        simp only [List.length_cons] at h2
        exact h2

theorem length_qpLines (rerr : Error) (ls : List (List Nat)) :
    (qpLines rerr ls).1.length ≤ ls.flatten.length := by
  induction ls with
  | nil => simp [qpLines]
  | cons l ls ih =>
    have h1 := length_qpBytes (qpPrepare rerr l).1 0
    have h2 := length_qpPrepare rerr l
    simp only [qpLines, List.flatten_cons, List.length_append]
    split
    · rename_i out e he
      rw [he] at h1
      simp only at h1 ⊢
      omega
    · rename_i out he
      rw [he] at h1
      simp only at h1
      split
      · simp only
        omega
      · simp only [List.length_append]
        omega

theorem length_quotedprintableNewReader (r : Reader) :
    (quotedprintableNewReader r).data.length ≤ r.data.length := by
  have h := length_qpLines r.err (linesOf r.data [])
  rw [flatten_linesOf] at h
  simpa [quotedprintableNewReader] using h

theorem length_newPart (raw : Part) :
    (newPart quotedprintableNewReader raw).body.data.length ≤ raw.body.data.length := by
  unfold newPart
  split
  · exact length_quotedprintableNewReader raw.body
  · exact Nat.le_refl _

theorem nextPartScan_found (db : List Nat) (rerr : Error) (partsRead : Nat)
    (ls : List (List Nat)) :
    ∀ (expect lf : Bool) (rest : List (List Nat)) (lf1 : Bool),
      nextPartScan db rerr partsRead expect lf ls = Scan.found rest lf1 →
      rest.flatten.length < ls.flatten.length := by
  induction ls with
  | nil => intro expect lf rest lf1 h; simp [nextPartScan] at h
  | cons l ls ih =>
    intro expect lf rest lf1 h
    simp only [nextPartScan] at h
    simp only [List.flatten_cons, List.length_append]
    split at h
    · split at h <;> cases h
    · rename_i hl
      have hpos : 0 < l.length := by
        cases l with
        | nil => simp at hl
        | cons a t => simp
      split at h
      · cases h
        omega
      · split at h
        · cases h
        · split at h
          · cases h
          · split at h
            · have := ih _ _ _ _ h
              omega
            · split at h
              · have := ih _ _ _ _ h
                omega
              · cases h

theorem readHeader_rest (rerr : Error) (ls : List (List Nat)) :
    ∀ (pending : Option (List Nat)) (m : MIMEHeader),
      (readHeader rerr ls pending m).2.flatten.length ≤ ls.flatten.length := by
  induction ls with
  | nil =>
    intro pending m
    simp only [readHeader]
    split <;> simp
  | cons l ls ih =>
    intro pending m
    simp only [readHeader, List.flatten_cons, List.length_append]
    split
    · have := ih (pending.map (fun kv => kv ++ 32 :: trimLWSP (stripEOL l))) m
      omega
    · split
      · simp
      · split
        · simp
        · split
          · simp
          · rename_i m1 _ _ _
            have := ih (some (trimLWSP (stripEOL l))) m1
            omega

theorem scanBoundary_fst (pat : List Nat) (l : List Nat) :
    ∀ acc : List Nat, (scanBoundary pat l acc).1.length ≤ acc.length + l.length := by
  induction l with
  | nil => intro acc; simp [scanBoundary]
  | cons c cs ih =>
    intro acc
    simp only [scanBoundary]
    split
    · simp
    · have := ih (c :: acc)
      simp only [List.length_cons] at this ⊢
      omega

theorem scanBoundary_snd (pat : List Nat) (l : List Nat) :
    ∀ (acc rest : List Nat), (scanBoundary pat l acc).2 = some rest →
      rest.length ≤ l.length := by
  induction l with
  | nil => intro acc rest h; simp [scanBoundary] at h
  | cons c cs ih =>
    intro acc rest h
    simp only [scanBoundary] at h
    split at h
    · simp only [Option.some.injEq] at h
      rw [← h]
    · have := ih (c :: acc) rest h
      simp only [List.length_cons]
      omega

theorem length_dropPartial (pat : List Nat) (nl0 : Nat) (l : List Nat) :
    (dropPartial pat nl0 l).length ≤ l.length := by
  induction l with
  | nil => simp [dropPartial]
  | cons c cs ih =>
    simp only [dropPartial]
    split
    · simp
    · simp only [List.length_cons]
      omega

theorem partBody_fst (db : List Nat) (lf : Bool) (rerr : Error) (buf : List Nat) :
    (partBody db lf rerr buf).1.data.length ≤ buf.length := by
  unfold partBody
  split
  · simp
  · split
    · simp
    · split
      · rename_i body rest h
        have := scanBoundary_fst (nlOf lf ++ db) buf []
        rw [h] at this
        simpa using this
      · exact length_dropPartial _ _ _

theorem partBody_snd (db : List Nat) (lf : Bool) (rerr : Error) (buf : List Nat) :
    (partBody db lf rerr buf).2.length ≤ buf.length := by
  unfold partBody
  split
  · simp
  · split
    · simp
    · split
      · rename_i body rest h
        have := scanBoundary_snd (nlOf lf ++ db) buf [] rest (by rw [h])
        simpa using this
      · simp

theorem partsLoop_bound (db : List Nat) (rerr : Error) (fuel : Nat) :
    ∀ (buf : List Nat) (partsRead : Nat) (lf : Bool),
      ∀ p ∈ (partsLoop db rerr fuel buf partsRead lf).parts,
        p.body.data.length < buf.length := by
  induction fuel with
  | zero => intro buf partsRead lf p hp; simp [partsLoop] at hp
  | succ fuel ih =>
    intro buf partsRead lf p hp
    simp only [partsLoop] at hp
    split at hp
    · simp at hp
    · rename_i rest lf1 hscan
      have h1 := nextPartScan_found db rerr partsRead _ _ _ _ _ hscan
      rw [flatten_linesOf] at h1
      simp only [List.reverse_nil, List.nil_append] at h1
      split at hp
      · simp at hp
      · split at hp
        · simp at hp
        · rename_i h rest1 hread
          have h2 := readHeader_rest rerr rest none []
          rw [hread] at h2
          simp only at h2
          have h3 := partBody_fst db lf1 rerr rest1.flatten
          have h4 := partBody_snd db lf1 rerr rest1.flatten
          simp only [List.mem_cons] at hp
          rcases hp with hp | hp
          · subst hp
            simp only
            omega
          · have := ih _ _ _ p hp
            omega

theorem stdEnv_shrinking (dct : String) : Shrinking (stdEnv dct) := by
  intro b boundary p hp
  simp only [stdEnv, NewReader, List.mem_map] at hp
  obtain ⟨raw, hraw, rfl⟩ := hp
  have h1 := length_newPart raw
  unfold NewRawReader at hraw
  split at hraw
  · simp at hraw
  · have := partsLoop_bound _ _ _ _ _ _ raw hraw
    omega

/-- The claim C15 fails on the code in its last part: in `abortBody` the sub-entities are
shorter than the body and the second one is a multipart, so the nesting depth of the input is
`2`, but the first sub-entity fails to drain and the call returns at depth `1`, without
entering the nested multipart. -/
theorem recursion_depth_counterexample :
    abortBody.data.length = 124 ∧
    (∀ p ∈ ((stdEnv exampleDefault).NewReader abortBody "X").parts,
      p.body.data.length < 124) ∧
    parseMIMEParts (stdEnv exampleDefault) 0 scenarioHeader abortBody = none ∧
    parseMIMEParts (stdEnv exampleDefault) 1 scenarioHeader abortBody =
      some ⟨scenarioHeader, [], some (Error.other "illegal base64 data")⟩ ∧
    nestingDepth (stdEnv exampleDefault) 125 scenarioHeader abortBody = 2 :=
  ⟨by decide, by decide, by decide, by decide, by decide⟩

/-- C15, amended: `parseMIMEParts` terminates on every input for which the multipart reader
yields finitely many sub-entities, each with a body strictly smaller than its parent's body:
the recursion is well-founded on the size of the byte range (the length of the body plus one
bounds the levels entered), and its depth is at most the MIME nesting depth of the input, and
equal to it when the call succeeds. -/
theorem parseMIMEParts_terminates (E : Env) (hsh : Shrinking E) (hs : MIMEHeader)
    (b : Reader) :
    (∃ r, parseMIMEParts E (b.data.length + 1) hs b = some r) ∧
    ∃ d, RecursionDepth E hs b d ∧
      d ≤ nestingDepth E (b.data.length + 1) hs b ∧
      ((∃ r, parseMIMEParts E d hs b = some r ∧ r.err = none) →
        d = nestingDepth E (b.data.length + 1) hs b) := by
  obtain ⟨r0, hr0⟩ := parseMIMEParts_returns E hsh (b.data.length + 1) hs b
    (Nat.lt_succ_self _)
  have hex : ∃ f, (parseMIMEParts E f hs b).isSome = true := ⟨_, by rw [hr0]; rfl⟩
  refine ⟨⟨r0, parseMIMEParts_mono E _ _ (nestingDepth_le E _ hs b) hs b r0 hr0⟩,
    Nat.find hex, ⟨?_, ?_⟩, ?_, ?_⟩
  · have hspec := Nat.find_spec hex
    cases hd : parseMIMEParts E (Nat.find hex) hs b with
    | none => simp [hd] at hspec
    | some r => exact ⟨r, rfl⟩
  · intro f hf
    have hmin := Nat.find_min hex hf
    cases hd : parseMIMEParts E f hs b with
    | none => rfl
    | some r => simp [hd] at hmin
  · exact Nat.find_min' hex (by rw [hr0]; rfl)
  · rintro ⟨r, hr, he⟩
    exact le_antisymm (Nat.find_min' hex (by rw [hr0]; rfl))
      (nestingDepth_le_of_success E _ hs b r hr he _)

/-- The two-level document `nestedBody`, 189 bytes long, run through the model of the
multipart reader: the call does not return at depth `1`, the nesting depth is `2`, and the
call returns within the bound of the theorem. -/
theorem parseMIMEParts_terminates_witness :
    (nestedBody.data.length = 189 ∧
     parseMIMEParts (stdEnv exampleDefault) 1 scenarioHeader nestedBody = none ∧
     (parseMIMEParts (stdEnv exampleDefault) 2 scenarioHeader nestedBody).isSome = true ∧
     nestingDepth (stdEnv exampleDefault) 190 scenarioHeader nestedBody = 2) ∧
    ((∃ r, parseMIMEParts (stdEnv exampleDefault) (nestedBody.data.length + 1) scenarioHeader
        nestedBody = some r) ∧
     ∃ d, RecursionDepth (stdEnv exampleDefault) scenarioHeader nestedBody d ∧
      d ≤ nestingDepth (stdEnv exampleDefault) (nestedBody.data.length + 1) scenarioHeader
        nestedBody ∧
      ((∃ r, parseMIMEParts (stdEnv exampleDefault) d scenarioHeader nestedBody = some r ∧
          r.err = none) →
        d = nestingDepth (stdEnv exampleDefault) (nestedBody.data.length + 1) scenarioHeader
          nestedBody)) :=
  ⟨⟨rfl, by decide, by decide, by decide⟩,
   parseMIMEParts_terminates (stdEnv exampleDefault) (stdEnv_shrinking exampleDefault)
    scenarioHeader nestedBody⟩

/-! ## The result does not depend on the fuel -/

/-- Two returning runs on the same input return the same result, whatever the numbers of
levels they were allowed. -/
theorem parseMIMEParts_unique (E : Env) (f1 f2 : Nat) (hs : MIMEHeader) (b : Reader)
    (r1 r2 : Result) (h1 : parseMIMEParts E f1 hs b = some r1)
    (h2 : parseMIMEParts E f2 hs b = some r2) : r1 = r2 := by
  rcases le_total f1 f2 with hle | hle
  · have h := parseMIMEParts_mono E f1 f2 hle hs b r1 h1
    rw [h2] at h
    exact (Option.some.inj h).symm
  · have h := parseMIMEParts_mono E f2 f1 hle hs b r2 h2
    rw [h1] at h
    exact Option.some.inj h

/-! ## The list returned with an error -/

/-- Sub-entities processed without error take the loop through, appending their parts. -/
theorem nextParts_outs (E : Env) (self : MIMEHeader → Reader → Option Result)
    (pre : List Part) (outs : List (List part))
    (h : List.Forall₂ (fun q out => stepPart E self q = some (Except.ok out)) pre outs) :
    ∀ ps : List part, nextParts E self pre Error.EOF ps = some (ps ++ outs.flatten, none) := by
  induction h with
  | nil => intro ps; simp [nextParts]
  | cons hab _ ih =>
    intro ps
    rw [nextParts_cons, hab]
    simp only
    rw [ih]
    simp

/-- C17: when a multipart iteration fails at its `k`-th sub-entity (read error of `NextPart`,
malformed content type, failure of the nested call, or drain failure) after the sub-entities
`pre` before it were processed successfully and gave the parts `outs`, `parseMIMEParts` returns
the error together with exactly those parts, in order; the parts that a failing nested call had
accumulated are not among them. -/
theorem parseMIMEParts_partial_list (E : Env) (fuel : Nat) (hs : MIMEHeader) (b : Reader)
    (boundary : String) (pre post : List Part) (outs : List (List part)) (e : Error)
    (hm : IsMultipart E hs boundary)
    (hparts : (E.NewReader b boundary).parts = pre ++ post)
    (hpre : List.Forall₂
      (fun q out => stepPart E (parseMIMEParts E fuel) q = some (Except.ok out)) pre outs)
    (hfail :
      (post = [] ∧ (E.NewReader b boundary).err = e ∧ e ≠ Error.EOF) ∨
      ∃ p rest, post = p :: rest ∧
        (E.ParseMediaType ((injectDefault E p.Header).Get CONTENT_TYPE) = Except.error e ∨
         (IsLeaf E p ∧
           ioCopy (subReader E (injectDefault E p.Header) p.body) = Except.error e) ∨
         ((∃ subct subparams,
             E.ParseMediaType ((injectDefault E p.Header).Get CONTENT_TYPE) =
               Except.ok (subct, subparams) ∧ HasPrefix subct MULTIPART = true) ∧
           ∃ r1, parseMIMEParts E fuel (injectDefault E p.Header) p.body = some r1 ∧
             r1.err = some e))) :
    parseMIMEParts E (fuel + 1) hs b = some ⟨injectDefault E hs, outs.flatten, some e⟩ := by
  have hacc := nextParts_outs E _ pre outs hpre []
  simp only [List.nil_append] at hacc
  rw [parseMIMEParts_multipart E fuel hs b boundary hm, hparts,
    nextParts_append E _ pre [] outs.flatten hacc]
  rcases hfail with ⟨hnil, herr, hne⟩ | ⟨p, rest, hcons, hcase⟩
  · rw [hnil, nextParts_nil, herr, if_neg hne]
  · have hstep : stepPart E (parseMIMEParts E fuel) p = some (Except.error e) := by
      rcases hcase with h1 | ⟨hl, hd⟩ | ⟨⟨subct, sp, hct, hmp⟩, r1, hr1, he1⟩
      · simp only [stepPart, h1]
      · rw [stepPart_leaf E _ p hl, hd]
      · simp only [stepPart, hct, hmp, if_true, hr1, he1]
    rw [hcons, nextParts_cons, hstep]

/-- In `failingNestedBody` the iteration fails at the second sub-entity, a multipart whose own
iteration had accumulated the part `b` before failing: the outer call returns the error with
the part `a` only. -/
theorem parseMIMEParts_partial_list_witness :
    parseMIMEParts (stdEnv exampleDefault) 1
        [("Content-Type", ["multipart/alternative; boundary=Y"])] failingInnerBody =
      some ⟨[("Content-Type", ["multipart/alternative; boundary=Y"])],
        [⟨[("Content-Type", [exampleDefault])], bytesOf "b"⟩],
        some (Error.other "mime: invalid media parameter")⟩ ∧
    parseMIMEParts (stdEnv exampleDefault) 2 scenarioHeader failingNestedBody =
      some ⟨injectDefault (stdEnv exampleDefault) scenarioHeader,
        [[(⟨[("Content-Type", ["text/plain"])], bytesOf "a"⟩ : part)]].flatten,
        some (Error.other "mime: invalid media parameter")⟩ :=
  ⟨by decide,
   parseMIMEParts_partial_list (stdEnv exampleDefault) 1 scenarioHeader failingNestedBody "X"
    [⟨[("Content-Type", ["text/plain"])], ⟨bytesOf "a", Error.EOF⟩⟩]
    [⟨[("Content-Type", ["multipart/alternative; boundary=Y"])], failingInnerBody⟩,
     ⟨[("Content-Type", ["text/plain"])], ⟨bytesOf "d", Error.EOF⟩⟩]
    [[⟨[("Content-Type", ["text/plain"])], bytesOf "a"⟩]]
    (Error.other "mime: invalid media parameter")
    ⟨"multipart/mixed", [("boundary", "X")], by decide, by decide, by decide⟩
    (by decide)
    (List.Forall₂.cons (by decide) List.Forall₂.nil)
    (Or.inr ⟨⟨[("Content-Type", ["multipart/alternative; boundary=Y"])], failingInnerBody⟩,
      [⟨[("Content-Type", ["text/plain"])], ⟨bytesOf "d", Error.EOF⟩⟩], rfl,
      Or.inr (Or.inr ⟨⟨"multipart/alternative", [("boundary", "Y")], by decide, by decide⟩,
        ⟨[("Content-Type", ["multipart/alternative; boundary=Y"])],
          [⟨[("Content-Type", [exampleDefault])], bytesOf "b"⟩],
          some (Error.other "mime: invalid media parameter")⟩, by decide, rfl⟩)⟩)⟩

/-! ## Transfer encodings the loop does not decode -/

/-- The claim C18 fails on the code for `quoted-printable`: the sub-entity of `qpBody` is a
leaf whose Content-Transfer-Encoding value is `quoted-printable`, not `base64`, and whose raw
bytes are `=41`; `NextPart` yields it decoded and without that field, and the part emitted for
it holds `A`. -/
theorem sub_raw_counterexample :
    (NewRawReader qpBody "X").parts = [⟨qpHeader, ⟨bytesOf "=41", Error.EOF⟩⟩] ∧
    qpHeader.Get CONTENT_TRANSFER_ENCODING = "quoted-printable" ∧
    qpHeader.Get CONTENT_TRANSFER_ENCODING ≠ "base64" ∧
    ((stdEnv exampleDefault).NewReader qpBody "X").parts =
      [⟨[("Content-Type", ["text/plain"])], ⟨bytesOf "A", Error.EOF⟩⟩] ∧
    parseMIMEParts (stdEnv exampleDefault) 1 scenarioHeader qpBody =
      some ⟨scenarioHeader, [⟨[("Content-Type", ["text/plain"])], bytesOf "A"⟩], none⟩ ∧
    bytesOf "A" ≠ bytesOf "=41" :=
  ⟨by decide, by decide, by decide, by decide, by decide, by decide⟩

/-- C18, amended: `parseMIMEParts` itself decodes only base64 inside a multipart entity, and
the multipart reader decodes quoted-printable. Let `raw` be a leaf sub-entity, as it stands in
the body, whose Content-Transfer-Encoding value is not exactly `base64`; `NextPart` yields it
as `newPart` makes it. If the value is not `quoted-printable` in any letter case (absent,
`7bit`), the emitted part has the sub-entity's header and its raw bytes, unchanged. If the
value is `quoted-printable` in some letter case, the emitted part has the sub-entity's header
without that field and the quoted-printable decoding of its bytes. At top level, the same
header and bytes with the value exactly `quoted-printable` yield the quoted-printable
decoding of the bytes. -/
theorem parseMIMEParts_sub_raw (E : Env) (fuel : Nat) (hs : MIMEHeader)
    (b : Reader) (boundary : String) (pre post : List Part) (raw : Part) (acc : List part)
    (hm : IsMultipart E hs boundary)
    (hparts : (E.NewReader b boundary).parts =
      pre ++ newPart E.quotedprintableNewReader raw :: post)
    (hpre : nextParts E (parseMIMEParts E fuel) pre Error.EOF [] = some (acc, none))
    (hl : IsLeaf E raw)
    (hcte : raw.Header.Get CONTENT_TRANSFER_ENCODING ≠ "base64") :
    (EqualFold (raw.Header.Get "Content-Transfer-Encoding") "quoted-printable" = false →
      raw.body.err = Error.EOF →
      stepPart E (parseMIMEParts E fuel) (newPart E.quotedprintableNewReader raw) =
        some (Except.ok [⟨injectDefault E raw.Header, raw.body.data⟩]) ∧
      ∀ r, parseMIMEParts E (fuel + 1) hs b = some r →
        ∃ tail, r.ps = acc ++ ⟨injectDefault E raw.Header, raw.body.data⟩ :: tail) ∧
    (EqualFold (raw.Header.Get "Content-Transfer-Encoding") "quoted-printable" = true →
      (E.quotedprintableNewReader raw.body).err = Error.EOF →
      stepPart E (parseMIMEParts E fuel) (newPart E.quotedprintableNewReader raw) =
        some (Except.ok [⟨injectDefault E (raw.Header.Del "Content-Transfer-Encoding"),
          (E.quotedprintableNewReader raw.body).data⟩]) ∧
      ∀ r, parseMIMEParts E (fuel + 1) hs b = some r →
        ∃ tail, r.ps = acc ++ ⟨injectDefault E (raw.Header.Del "Content-Transfer-Encoding"),
          (E.quotedprintableNewReader raw.body).data⟩ :: tail) ∧
    (raw.Header.Get CONTENT_TRANSFER_ENCODING = "quoted-printable" →
      (E.quotedprintableNewReader raw.body).err = Error.EOF →
      parseMIMEParts E (fuel + 1) raw.Header raw.body =
        some ⟨injectDefault E raw.Header,
          [⟨injectDefault E raw.Header, (E.quotedprintableNewReader raw.body).data⟩],
          none⟩) := by
  refine ⟨?_, ?_, ?_⟩
  · intro hf hb
    have hstep : stepPart E (parseMIMEParts E fuel) (newPart E.quotedprintableNewReader raw) =
        some (Except.ok [⟨injectDefault E raw.Header, raw.body.data⟩]) := by
      rw [newPart_other _ raw hf]
      exact stepPart_passthrough E _ raw hl hcte hb
    refine ⟨hstep, ?_⟩
    intro r hr
    obtain ⟨tail, ht⟩ := parseMIMEParts_emits E fuel hs b boundary pre post _ acc _ hm hparts
      hpre hstep r hr
    exact ⟨tail, by simp [ht]⟩
  · intro hf hq
    have hstep := stepPart_newPart_fold E (parseMIMEParts E fuel) raw hl hf hq
    refine ⟨hstep, ?_⟩
    intro r hr
    obtain ⟨tail, ht⟩ := parseMIMEParts_emits E fuel hs b boundary pre post _ acc _ hm hparts
      hpre hstep r hr
    exact ⟨tail, by simp [ht]⟩
  · intro hq hqe
    exact parseMIMEParts_top_quotedprintable E fuel raw hl hq hqe

/-- The two sub-entities of `mixedBody`, both with the bytes `=41`: under `7bit` the emitted
part holds `=41`; under `Quoted-Printable` it holds `A` and has lost that field. At top level
the header of the sub-entity of `qpBody` with the same bytes gives `A`. -/
theorem parseMIMEParts_sub_raw_witness :
    (NewRawReader mixedBody "X").parts =
      [⟨[("Content-Transfer-Encoding", ["7bit"])], ⟨bytesOf "=41", Error.EOF⟩⟩,
       ⟨[("Content-Transfer-Encoding", ["Quoted-Printable"])], ⟨bytesOf "=41", Error.EOF⟩⟩] ∧
    parseMIMEParts (stdEnv exampleDefault) 1 scenarioHeader mixedBody =
      some ⟨scenarioHeader,
        [⟨[("Content-Type", [exampleDefault]), ("Content-Transfer-Encoding", ["7bit"])],
          bytesOf "=41"⟩,
         ⟨[("Content-Type", [exampleDefault])], bytesOf "A"⟩], none⟩ ∧
    (stepPart (stdEnv exampleDefault) (parseMIMEParts (stdEnv exampleDefault) 0)
        (newPart quotedprintableNewReader
          ⟨[("Content-Transfer-Encoding", ["7bit"])], ⟨bytesOf "=41", Error.EOF⟩⟩) =
      some (Except.ok
        [⟨[("Content-Type", [exampleDefault]), ("Content-Transfer-Encoding", ["7bit"])],
          [61, 52, 49]⟩]) ∧
      ∀ r, parseMIMEParts (stdEnv exampleDefault) 1 scenarioHeader mixedBody = some r →
        ∃ tail, r.ps = [] ++
          ⟨[("Content-Type", [exampleDefault]), ("Content-Transfer-Encoding", ["7bit"])],
            [61, 52, 49]⟩ :: tail) ∧
    (stepPart (stdEnv exampleDefault) (parseMIMEParts (stdEnv exampleDefault) 0)
        (newPart quotedprintableNewReader
          ⟨[("Content-Transfer-Encoding", ["Quoted-Printable"])],
            ⟨bytesOf "=41", Error.EOF⟩⟩) =
      some (Except.ok [⟨[("Content-Type", [exampleDefault])], [65]⟩]) ∧
      ∀ r, parseMIMEParts (stdEnv exampleDefault) 1 scenarioHeader mixedBody = some r →
        ∃ tail, r.ps =
          [⟨[("Content-Type", [exampleDefault]), ("Content-Transfer-Encoding", ["7bit"])],
            bytesOf "=41"⟩] ++
          ⟨[("Content-Type", [exampleDefault])], [65]⟩ :: tail) ∧
    parseMIMEParts (stdEnv exampleDefault) 1 qpHeader ⟨bytesOf "=41", Error.EOF⟩ =
      some ⟨qpHeader, [⟨qpHeader, [65]⟩], none⟩ :=
  ⟨by decide, by decide,
   (parseMIMEParts_sub_raw (stdEnv exampleDefault) 0 scenarioHeader mixedBody "X" []
      [⟨[], ⟨bytesOf "A", Error.EOF⟩⟩]
      ⟨[("Content-Transfer-Encoding", ["7bit"])], ⟨bytesOf "=41", Error.EOF⟩⟩ []
      ⟨"multipart/mixed", [("boundary", "X")], by decide, by decide, by decide⟩
      (by decide) (by decide) ⟨"text/plain", [("charset", "us-ascii")], by decide, by decide⟩
      (by decide)).1 (by decide) rfl,
   (parseMIMEParts_sub_raw (stdEnv exampleDefault) 0 scenarioHeader mixedBody "X"
      [⟨[("Content-Transfer-Encoding", ["7bit"])], ⟨bytesOf "=41", Error.EOF⟩⟩] []
      ⟨[("Content-Transfer-Encoding", ["Quoted-Printable"])], ⟨bytesOf "=41", Error.EOF⟩⟩
      [⟨[("Content-Type", [exampleDefault]), ("Content-Transfer-Encoding", ["7bit"])],
        bytesOf "=41"⟩]
      ⟨"multipart/mixed", [("boundary", "X")], by decide, by decide, by decide⟩
      (by decide) (by decide) ⟨"text/plain", [("charset", "us-ascii")], by decide, by decide⟩
      (by decide)).2.1 (by decide) (by decide),
   (parseMIMEParts_sub_raw (stdEnv exampleDefault) 0 scenarioHeader qpBody "X" [] []
      ⟨qpHeader, ⟨bytesOf "=41", Error.EOF⟩⟩ []
      ⟨"multipart/mixed", [("boundary", "X")], by decide, by decide, by decide⟩
      (by decide) (by decide) ⟨"text/plain", [], by decide, by decide⟩
      (by decide)).2.2 (by decide) (by decide)⟩

/-! ## Default injection is transparent -/

/-- A call on a mapping with the default content type already injected is the call on the
mapping itself. -/
theorem parseMIMEParts_injectDefault (E : Env) (fuel : Nat) (hs : MIMEHeader) (b : Reader) :
    parseMIMEParts E fuel (injectDefault E hs) b = parseMIMEParts E fuel hs b := by
  cases fuel with
  | zero => rfl
  | succ n => simp only [parseMIMEParts, injectDefault_idem]

/-- C19: default injection is transparent to the result. For a header mapping `hs` with no
Content-Type key and every body `b`, `parseMIMEParts` returns on `hs` what it returns on `hs`
with Content-Type set to `DefaultContentType`, the same error or the same parts; and a second
run on the mapping left by a first run returns what the first run returned. -/
theorem parseMIMEParts_injection_transparent (E : Env) (fuel : Nat) (hs : MIMEHeader)
    (b : Reader) (hno : hs.has CONTENT_TYPE = false) :
    parseMIMEParts E fuel (hs.Set CONTENT_TYPE E.DefaultContentType) b =
      parseMIMEParts E fuel hs b ∧
    ∀ r, parseMIMEParts E fuel hs b = some r → parseMIMEParts E fuel r.hs b = some r := by
  have hinj : injectDefault E hs = hs.Set CONTENT_TYPE E.DefaultContentType := by
    rw [injectDefault, if_neg (by simp [hno])]
  refine ⟨by rw [← hinj]; exact parseMIMEParts_injectDefault E fuel hs b, ?_⟩
  intro r hr
  rw [parseMIMEParts_hs E fuel hs b r hr, parseMIMEParts_injectDefault E fuel hs b]
  exact hr

/-- The body `abc` without a Content-Type and with the default one already set give the same
single part. -/
theorem parseMIMEParts_injection_transparent_witness :
    parseMIMEParts (stdEnv exampleDefault) 1
        (MIMEHeader.Set [] CONTENT_TYPE (stdEnv exampleDefault).DefaultContentType)
        ⟨bytesOf "abc", Error.EOF⟩ =
      parseMIMEParts (stdEnv exampleDefault) 1 [] ⟨bytesOf "abc", Error.EOF⟩ ∧
    parseMIMEParts (stdEnv exampleDefault) 1
        (⟨[("Content-Type", [exampleDefault])],
          [⟨[("Content-Type", [exampleDefault])], bytesOf "abc"⟩], none⟩ : Result).hs
        ⟨bytesOf "abc", Error.EOF⟩ =
      some ⟨[("Content-Type", [exampleDefault])],
          [⟨[("Content-Type", [exampleDefault])], bytesOf "abc"⟩], none⟩ :=
  ⟨(parseMIMEParts_injection_transparent (stdEnv exampleDefault) 1 []
      ⟨bytesOf "abc", Error.EOF⟩ (by decide)).1,
   (parseMIMEParts_injection_transparent (stdEnv exampleDefault) 1 []
      ⟨bytesOf "abc", Error.EOF⟩ (by decide)).2 _ (by decide)⟩

end mail
